import Mathlib

/-!
Verification development for the `curiosity` natural-language query engine.

The JavaScript sources are shallowly embedded: strings are `List Char`
(`Str`), JS numbers are `ℚ` (the claims under scrutiny are exact
arithmetic facts; `NaN` is represented by `Option.none` at coercion
boundaries), JS `null`/string/number values are the inductive `JsVal`,
and a missing object property (`undefined`) is `Option.none` at lookup
sites.  Stateful code (the NLP session cache) is embedded by explicit
state passing.  Host primitives that live outside the repository
(`Date` parsing, the function registry lookup) are parameters.
-/

set_option maxRecDepth 4000

/-- JS strings modelled as lists of characters. -/
abbrev Str := List Char

/-- Shorthand turning a Lean string literal into the `Str` model. -/
def lc (s : String) : Str := s.data

/-- Decimal digit characters. -/
def isDigitCh (c : Char) : Bool := ('0' ≤ c && c ≤ '9')

/-- The characters kept by the `replace(/[^0-9.\-]/g, "")` normalisation
used throughout the sources: digits, the dot and the minus sign. -/
def keptNumericCh (c : Char) : Bool := isDigitCh c || c = '.' || c = '-'

/-- `String.replace(/[^0-9.\-]/g, "")`: strip every character that is not
a digit, a dot or a minus sign. -/
def stripNonNumeric (s : Str) : Str := s.filter keptNumericCh

/-- JS whitespace as used by `trim` and `\s` (ASCII portion; the inputs
of this development never contain the exotic Unicode space characters). -/
def isWsCh (c : Char) : Bool :=
  c = ' ' || c = '\t' || c = '\n' || c = '\r' || c = '\x0b' || c = '\x0c'

/-- A regex word character `\w` = `[A-Za-z0-9_]`. -/
def isWordCh (c : Char) : Bool :=
  ('a' ≤ c && c ≤ 'z') || ('A' ≤ c && c ≤ 'Z') || isDigitCh c || c = '_'

/-- ASCII lower-casing of one character (`String.prototype.toLowerCase`
restricted to the ASCII range actually exercised by the sources). -/
def lowerCh (c : Char) : Char :=
  if 'A' ≤ c && c ≤ 'Z' then Char.ofNat (c.toNat + 32) else c

/-- `toLowerCase` over the whole string. -/
def lowerStr (s : Str) : Str := s.map lowerCh

/-- `String.prototype.trim`. -/
def jsTrim (s : Str) : Str :=
  ((s.dropWhile isWsCh).reverse.dropWhile isWsCh).reverse

/-- Digits of a string interpreted as a natural number (used on regex
captures that are known to consist of `\d+`). -/
def digitsToNat (s : Str) : ℕ :=
  s.foldl (fun acc c => acc * 10 + (c.toNat - '0'.toNat)) 0

/-- Parse an unsigned decimal mantissa `d+ | d+.d* | .d+` together with an
optional exponent, returning the represented rational.  Helper for
`jsNumber`. -/
def parseMantissa (s : Str) : Option ℚ :=
  let intPart := s.takeWhile isDigitCh
  let rest := s.dropWhile isDigitCh
  match rest with
  | [] => if intPart = [] then none else some (digitsToNat intPart)
  | '.' :: fracRest =>
      let fracPart := fracRest.takeWhile isDigitCh
      let rest' := fracRest.dropWhile isDigitCh
      if rest' ≠ [] then none
      else if intPart = [] && fracPart = [] then none
      else some ((digitsToNat intPart : ℚ) +
        (digitsToNat fracPart : ℚ) / ((10 : ℚ) ^ fracPart.length))
  | _ => none

/-- Split off an optional exponent suffix `e[+-]?d+` / `E[+-]?d+`. -/
def splitExponent (s : Str) : Str × Option ℤ :=
  match s.splitOnP (fun c => c = 'e' || c = 'E') with
  | [m, e] =>
      let (sign, ds) : ℚ × Str :=
        match e with
        | '+' :: ds => (1, ds)
        | '-' :: ds => (-1, ds)
        | ds => (1, ds)
      if ds ≠ [] && ds.all isDigitCh then
        (m, some (if sign = -1 then -(digitsToNat ds : ℤ) else (digitsToNat ds : ℤ)))
      else (s, none)
  | _ => (s, none)

/-- JS `Number(string)` on the decimal fragment of its grammar: leading
and trailing whitespace is ignored, the empty string is `0`, an optional
sign precedes a decimal mantissa with optional exponent; anything else is
`NaN` (`none`).  The host also accepts hex/binary literals and
`Infinity`, which never occur in this development and are mapped to
`NaN`. -/
def jsNumber (s : Str) : Option ℚ :=
  let t := jsTrim s
  if t = [] then some 0
  else
    let (sign, body) : ℚ × Str :=
      match t with
      | '-' :: r => (-1, r)
      | '+' :: r => (1, r)
      | r => (1, r)
    let (mant, expo) := splitExponent body
    match parseMantissa mant with
    | none => none
    | some m =>
        match expo with
        | none => some (sign * m)
        | some e => some (sign * m * (10 : ℚ) ^ e)

/-- A JS value as stored in a data row or passed to the libraries:
`null`, a (finite) number, or a string. -/
inductive JsVal where
  | null : JsVal
  | num : ℚ → JsVal
  | str : Str → JsVal
deriving DecidableEq, Repr

/-- JS truthiness of a possibly-absent value (`undefined` is `none`). -/
def jsTruthy (v : Option JsVal) : Bool :=
  match v with
  | none => false
  | some .null => false
  | some (.num q) => !(q = 0)
  | some (.str s) => !(s = [])

/-- Truthiness of a definitely-present value. -/
def jsTruthyV (v : JsVal) : Bool := jsTruthy (some v)

/-- The composite coercion `Number(String(x ?? "").replace(/[^0-9.\-]/g, ""))`
(and the equivalent `Number(String(x || "").replace(...))`) used by the
query engine on row values.  `null`/`undefined` become `""` hence `0`.
For a number, `String` followed by the strip is the identity on the
canonical decimal numerals produced for the ordinary magnitudes this
system handles, so the round trip yields the number back. -/
def coerceNum (v : Option JsVal) : Option ℚ :=
  match v with
  | none => some 0
  | some .null => some 0
  | some (.num q) => some q
  | some (.str s) => jsNumber (stripNonNumeric s)

/-- `parseFloat(x.toFixed(2))`: round to two decimals.  `toFixed` picks
the closest hundredth, preferring the larger candidate on ties. -/
def round2 (q : ℚ) : ℚ := (⌊q * 100 + 1 / 2⌋ : ℚ) / 100

/-- Association-list lookup modelling JS property access (`obj[k]`);
`none` is `undefined`. -/
def getProp (r : List (Str × JsVal)) (k : Str) : Option JsVal :=
  match r with
  | [] => none
  | (k', v) :: rest => if k' = k then some v else getProp rest k

/-- `{...obj, k: v}` – update the property in place if present, else
append it (JS property-order semantics). -/
def setProp (r : List (Str × JsVal)) (k : Str) (v : JsVal) : List (Str × JsVal) :=
  match r with
  | [] => [(k, v)]
  | (k', v') :: rest => if k' = k then (k, v) :: rest else (k', v') :: setProp rest k v

/-- Stable insertion used to model V8's stable `Array.prototype.sort`
with a numeric comparator: insert `x` before the first element whose key
is strictly smaller (descending order, ties keep input order). -/
def insDesc {α : Type} (key : α → ℚ) (x : α) : List α → List α
  | [] => [x]
  | y :: ys => if key y < key x then x :: y :: ys else y :: insDesc key x ys

/-- Stable sort, descending by `key` (ties keep the input order), as
produced by `arr.sort((a, b) => key b - key a)` under a stable host sort. -/
def sortDesc {α : Type} (key : α → ℚ) (l : List α) : List α :=
  l.foldl (fun acc x => insDesc key x acc) []

/-- Stable insertion, ascending numeric order. -/
def insAsc (x : ℚ) : List ℚ → List ℚ
  | [] => [x]
  | y :: ys => if x < y then x :: y :: ys else y :: insAsc x ys

/-- `arr.sort((a, b) => a - b)` on numbers. -/
def sortAscQ (l : List ℚ) : List ℚ :=
  l.foldl (fun acc x => insAsc x acc) []

/-- Substring containment: `haystack.includes(needle)`. -/
def includesStr (hay needle : Str) : Bool :=
  match hay with
  | [] => needle.isEmpty
  | _ :: t => needle.isPrefixOf hay || includesStr t needle

namespace Statistical

/-- `v != null && !isNaN(v)` – the validity filter shared by the numeric
statistics: drop `null`/`undefined`, keep numbers, keep strings whose JS
numeric coercion is not `NaN`. -/
def validNum (v : JsVal) : Bool :=
  match v with
  | .null => false
  | .num _ => true
  | .str s => (jsNumber s).isSome

/-- `Number(v)` applied to a value that passed `validNum`. -/
def toNum (v : JsVal) : ℚ :=
  match v with
  | .null => 0
  | .num q => q
  | .str s => (jsNumber s).getD 0

/-- `values.filter(v => v != null && !isNaN(v)).map(v => Number(v))`. -/
def nums (values : List JsVal) : List ℚ :=
  (values.filter validNum).map toNum

/-- `mean`: `null` on zero valid values, else the arithmetic average. -/
def mean (values : List JsVal) : Option ℚ :=
  let ns := nums values
  if ns.length = 0 then none
  else some (ns.foldl (· + ·) 0 / ns.length)

/-- `mean` restricted to an already-numeric list (the library re-enters
`mean` with the filtered numbers; numbers always pass the filter). -/
def meanQ (ns : List ℚ) : Option ℚ :=
  mean (ns.map .num)

/-- `variance` (population): `null` on zero valid values, `0` on one. -/
def variance (values : List JsVal) : Option ℚ :=
  let ns := nums values
  if ns.length = 0 then none
  else if ns.length = 1 then some 0
  else
    match meanQ ns with
    | none => none
    | some avg => meanQ (ns.map (fun v => (v - avg) ^ 2))

/-- `standardDeviation`: like `variance` but the final average is passed
through the host's `Math.sqrt`, modelled by the parameter `sqrt` (the
claims only exercise the `0`- and `1`-element branches, which never reach
it). -/
def standardDeviation (sqrt : ℚ → ℚ) (values : List JsVal) : Option ℚ :=
  let ns := nums values
  if ns.length = 0 then none
  else if ns.length = 1 then some 0
  else
    match meanQ ns with
    | none => none
    | some avg =>
        match meanQ (ns.map (fun v => (v - avg) ^ 2)) with
        | none => none
        | some m => some (sqrt m)

/-- `median`: `null` on zero valid values, middle element (or average of
the two middle elements) of the ascending sort otherwise. -/
def median (values : List JsVal) : Option ℚ :=
  let ns := sortAscQ (nums values)
  if ns.length = 0 then none
  else
    let mid := ns.length / 2
    if ns.length % 2 = 0 then
      some ((ns.getD (mid - 1) 0 + ns.getD mid 0) / 2)
    else some (ns.getD mid 0)

/-- `min`. -/
def min (values : List JsVal) : Option ℚ :=
  match nums values with
  | [] => none
  | n :: ns => some (ns.foldl Min.min n)

/-- `max`. -/
def max (values : List JsVal) : Option ℚ :=
  match nums values with
  | [] => none
  | n :: ns => some (ns.foldl Max.max n)

/-- Distinct values in first-occurrence order (the keys of the JS
`frequency` object in insertion order, before integer-key reordering). -/
def dedupQ (l : List ℚ) : List ℚ :=
  l.foldl (fun acc x => if x ∈ acc then acc else acc ++ [x]) []

/-- Whether `String(q)` is an array-index-like object key (a canonical
non-negative integer below `2^32 - 1`); such keys enumerate first, in
ascending numeric order. -/
def isIndexKey (q : ℚ) : Bool := q.den = 1 && 0 ≤ q.num && q.num < 4294967295

/-- Key enumeration order of the JS `frequency` object: integer-like keys
ascending, then the remaining keys in insertion order. -/
def keyOrder (l : List ℚ) : List ℚ :=
  let ks := dedupQ l
  sortAscQ (ks.filter isIndexKey) ++ ks.filter (fun k => !isIndexKey k)

/-- `mode`: `null` on zero valid values, else the first key (in object
enumeration order) attaining the highest frequency. -/
def mode (values : List JsVal) : Option ℚ :=
  let ns := nums values
  if ns.length = 0 then none
  else
    (keyOrder ns).foldl
      (fun (st : Option ℚ × ℕ) k =>
        let c := ns.count k
        if st.2 < c then (some k, c) else st)
      (none, 0) |>.1

/-- `sum`: a plain fold with initial value `0` – it returns a **number**
for every input, including when there are zero valid values. -/
def sum (values : List JsVal) : ℚ :=
  (nums values).foldl (· + ·) 0

/-- `count`: the number of entries that are neither `null` nor the empty
string – again always a number. -/
def count (values : List JsVal) : ℕ :=
  (values.filter (fun v =>
    match v with
    | .null => false
    | .str s => !(s = [])
    | .num _ => true)).length

end Statistical

namespace Financial

/-- `toNumber` inside `loanProfit`: `null`/`undefined` is `NaN`, anything
else is `Number(String(v).replace(/[^0-9.\-]/g, ""))`. -/
def toNumber (v : Option JsVal) : Option ℚ :=
  match v with
  | none => none
  | some .null => none
  | some (.num q) => some q
  | some (.str s) => jsNumber (stripNonNumeric s)

/-- The term actually used by `loanProfit`: `termMonths ? toNumber(termMonths) : 12`,
then default `12` when `NaN` or non-positive, then clamp to `[1, 360]`. -/
def loanProfitTerm (termMonths : Option JsVal) : ℚ :=
  let months0 : Option ℚ := if jsTruthy termMonths then toNumber termMonths else some 12
  let months1 : ℚ :=
    match months0 with
    | none => 12
    | some m => if m ≤ 0 then 12 else m
  Max.max 1 (Min.min months1 360)

/-- `loanProfit(principal, rate, termMonths)` from `library/financial.js`. -/
def loanProfit (principal rate termMonths : Option JsVal) : ℚ :=
  if principal = none || principal = some .null ||
     rate = none || rate = some .null then 0
  else
    match toNumber principal, toNumber rate with
    | none, _ => 0
    | _, none => 0
    | some p, some r0 =>
        if p ≤ 0 then 0
        else
          let r := if 1 < r0 then r0 / 100 else r0
          let months := loanProfitTerm termMonths
          round2 (p * r * (months / 12))

end Financial

/-- A relative-time payload (`{unit, value}`) of a date condition. -/
structure RelTime where
  unit : Str
  value : ℚ
deriving DecidableEq, Repr

/-- One condition of a query plan.  Optional fields model the free-form
JS objects: `none` is an absent property.  `value`, `valueMin` and
`valueMax` are `none` when the JS number would be `NaN`. -/
structure Cond where
  concept : Option Str := none
  op : Str
  value : Option ℚ := none
  valueMin : Option ℚ := none
  valueMax : Option ℚ := none
  valueType : Option Str := none
  field : Option Str := none
  func : Option Str := none
  translated : Bool := false
  translationSource : Option Str := none
  relativeTime : Option RelTime := none
  absoluteDate : Option Str := none
deriving DecidableEq, Repr

/-- Truthiness of an optional string property. -/
def strOptTruthy (s : Option Str) : Bool :=
  match s with
  | none => false
  | some s => !(s = [])

/-- One column description of a dataset schema (`Field` itself is taken
by Mathlib, hence the `S` prefix standing for schema). -/
structure SField where
  id : Str
  name : Str
  dataType : Str
  roleGuess : Str
deriving DecidableEq, Repr

/-- A dataset schema. -/
structure Schema where
  fields : List SField
deriving DecidableEq, Repr

namespace ConceptMapper

/-- `SEMANTIC_GROUPS` from `conceptMapper.js`. -/
def semanticGroups : List (List Str) :=
  [ [lc "branch", lc "branch_number", lc "branchnumber", lc "location", lc "office", lc "branch_id"],
    [lc "officer", lc "officer_id", lc "officerid", lc "rm", lc "rm_id", lc "relationship_manager",
     lc "relationshipmanager", lc "relationship_mgr", lc "relationship", lc "manager", lc "owner",
     lc "owner_id", lc "ownerid", lc "owner_code", lc "ownercode"],
    [lc "class", lc "type", lc "category", lc "group", lc "classification", lc "class_code",
     lc "classcode", lc "kind"],
    [lc "principal", lc "loan_amount", lc "amount", lc "balance", lc "origination",
     lc "loan_balance", lc "principal_amount"],
    [lc "checking", lc "checking_balance", lc "checking_account", lc "checking_amount"],
    [lc "deposit", lc "deposit_balance", lc "deposit_amount", lc "deposit_account"],
    [lc "rate", lc "rates", lc "interest_rate", lc "interest", lc "apr", lc "apy"],
    [lc "close", lc "closed", lc "maturity", lc "paid", lc "off", lc "close_date",
     lc "maturity_date", lc "paid_off"],
    [lc "open", lc "opened", lc "origination", lc "start", lc "open_date", lc "date_opened",
     lc "origination_date"],
    [lc "customer", lc "customer_id", lc "member", lc "member_id", lc "client", lc "client_id"],
    [lc "portfolio", lc "portfolio_id", lc "account", lc "account_id", lc "reference", lc "id"] ]

/-- `NOUN_ADJUNCT_PATTERNS`. -/
def nounAdjunctPatterns : List Str :=
  [lc "number", lc "id", lc "code", lc "key", lc "reference", lc "identifier"]

/-- `stemPlural`: `-ies → -y`, else drop `-es`, else drop `-s`. -/
def dropLastN (n : ℕ) (l : Str) : Str := l.take (l.length - n)

def stemPlural (word : Str) : Str :=
  if (lc "ies").isSuffixOf word then dropLastN 3 word ++ [ 'y' ]
  else if (lc "es").isSuffixOf word then dropLastN 2 word
  else if (lc "s").isSuffixOf word then dropLastN 1 word
  else word

/-- Split a string on runs of whitespace, dropping empty pieces – the
`split(/\s+/) … filter(Boolean)` combination. -/
def splitWsNonEmpty (s : Str) : List Str :=
  (s.splitOnP isWsCh).filter (fun t => !(t = []))

/-- `tokenizeFieldName`: `_`/`-` become spaces, split on whitespace,
lower-case, drop empties. -/
def tokenizeFieldName (name : Str) : List Str :=
  (splitWsNonEmpty (name.map (fun c => if c = '_' || c = '-' then ' ' else c))).map lowerStr

/-- `extractBaseNoun`: strip one trailing noun-adjunct token, when the
concept has more than one token; otherwise return the concept unchanged. -/
def extractBaseNoun (concept : Str) : Str :=
  let tokens := tokenizeFieldName concept
  if 1 < tokens.length && nounAdjunctPatterns.contains (tokens.getLastD []) then
    List.intercalate (lc " ") tokens.dropLast
  else concept

/-- `findSemanticGroups`: indices of the semantic groups hit by any token
of the word (exact membership, or substring overlap in either direction). -/
def findSemanticGroups (word : Str) : List ℕ :=
  let tokens := tokenizeFieldName (lowerStr word)
  (List.range semanticGroups.length).filter (fun i =>
    let group := semanticGroups.getD i []
    tokens.any (fun t =>
      group.contains t || group.any (fun g => includesStr t g || includesStr g t)))

/-- `scoreFieldForConcept`: 0 unless the field name and the concept share
a semantic group; then +3 per identical token pair sharing a group, +2
per distinct same-group pair, +1 per plain substring overlap. -/
def scoreFieldForConcept (fieldName conceptWord : Str) : ℕ :=
  let fieldTokens := tokenizeFieldName fieldName
  let conceptTokens := tokenizeFieldName conceptWord
  if fieldTokens = [] || conceptTokens = [] then 0
  else
    let fieldGroups := fieldTokens.flatMap findSemanticGroups
    let conceptGroups := conceptTokens.flatMap findSemanticGroups
    if fieldGroups.all (fun g => !(conceptGroups.contains g)) then 0
    else
      fieldTokens.foldl (fun acc t =>
        conceptTokens.foldl (fun acc' ct =>
          if (findSemanticGroups t).any (fun g => (findSemanticGroups ct).contains g) then
            if t = ct then acc' + 3 else acc' + 2
          else if includesStr t ct || includesStr ct t then acc' + 1
          else acc') acc) 0

/-- Compatibility filter applied by both the exact-base-noun branch and
the scoring loop: a number condition needs a `number`/`integer`/`currency`
field, a date condition needs a `date` field. -/
def typeCompatible (valueType : Option Str) (f : SField) : Bool :=
  (!(valueType = some (lc "number")) ||
    f.dataType = lc "number" || f.dataType = lc "integer" || f.dataType = lc "currency") &&
  (!(valueType = some (lc "date")) || f.dataType = lc "date")

/-- The two tests of the exact-base-noun branch combined, as used by the
`schema.fields.find(...)` call: name equals the base noun (modulo case)
and the data type is compatible. -/
def exactBaseNounPred (cond : Cond) (baseNoun : Str) (f : SField) : Bool :=
  lowerStr f.name = lowerStr baseNoun && typeCompatible cond.valueType f

/-- The body of the `conditions.map` in `mapConceptsToFields`, for one
condition; `meta` is the key set of `window.Translators._meta` (`none`
when the registry or its metadata is absent). -/
def mapCondition (sch : Schema) (meta : Option (List Str)) (cond : Cond) : Cond :=
  if strOptTruthy cond.func then cond
  else if cond.translated && strOptTruthy cond.translationSource && meta.isSome then
    let src := cond.translationSource.getD []
    let stemmed := stemPlural src
    if (meta.getD []).contains stemmed then
      match semanticGroups.find? (fun group =>
          group.any (fun term => lowerStr term = lowerStr stemmed)) with
      | some group =>
          match group.find? (fun fieldName =>
              sch.fields.any (fun f => lowerStr f.name = lowerStr fieldName)) with
          | some primaryField =>
              match sch.fields.find? (fun f => lowerStr f.name = lowerStr primaryField) with
              | some actualField => { cond with field := some (lowerStr actualField.id) }
              | none => cond
          | none => cond
      | none => cond
    else cond
  else if !(strOptTruthy cond.concept) then cond
  else
    let concept := cond.concept.getD []
    let baseNoun := extractBaseNoun concept
    match sch.fields.find? (exactBaseNounPred cond baseNoun) with
    | some f => { cond with field := some f.id }
    | none =>
        let best := sch.fields.foldl
          (fun (st : Option SField × ℤ) f =>
            if !(typeCompatible cond.valueType f) then st
            else
              let s : ℤ := scoreFieldForConcept f.name concept
              if st.2 < s then (some f, s) else st)
          (none, -1)
        if best.1 = none || best.2 ≤ 0 then
          match sch.fields.find? (fun f =>
              lowerStr f.name = lowerStr concept || lowerStr f.id = lowerStr concept) with
          | some f => { cond with field := some f.id }
          | none => cond
        else
          match best.1 with
          | some f => { cond with field := some f.id }
          | none => cond

/-- `mapConceptsToFields(sourceId, conditions)`, with the schema lookup
already performed (`none` = unknown source). -/
def mapConceptsToFields (schema : Option Schema) (meta : Option (List Str))
    (conds : List Cond) : List Cond :=
  match schema with
  | none => conds
  | some sch =>
      if sch.fields = [] then conds
      else conds.map (mapCondition sch meta)

end ConceptMapper

/-- A data row: a JS record keyed by field id. -/
abbrev Row := List (Str × JsVal)

/-- Source metadata as held in `sourcesMeta`. -/
structure SourceMeta where
  sourceId : Str
  name : Str
  originalFileName : Str
deriving DecidableEq, Repr

/-- The storage collaborator consumed by the query engine: the list of
sources plus schema and row tables keyed by source id.  `getAllRows` of
an unknown source is the empty list, `getSchema` is `none`. -/
structure Env where
  sourcesMeta : List SourceMeta
  schemas : List (Str × Schema)
  rowsTbl : List (Str × List Row)

/-- `getSchema(sourceId)`. -/
def Env.getSchema (e : Env) (sid : Str) : Option Schema :=
  (e.schemas.find? (fun p => p.1 = sid)).map (·.2)

/-- `getAllRows(sourceId)`. -/
def Env.getAllRows (e : Env) (sid : Str) : List Row :=
  ((e.rowsTbl.find? (fun p => p.1 = sid)).map (·.2)).getD []

namespace DataManager

/-- `detectEntityTypes` from `dataManager.js`: entity labels inferred
from substrings of the dataset name / original file name. -/
def detectEntityTypes (s : SourceMeta) : List Str :=
  let name := lowerStr s.name
  let fileName := lowerStr s.originalFileName
  let hit (w : String) : Bool := includesStr name (lc w) || includesStr fileName (lc w)
  let entities :=
    (if hit "loan" then [lc "loans"] else []) ++
    (if hit "checking" || hit "dda" then [lc "checking"] else []) ++
    (if hit "deposit" then [lc "deposits"] else []) ++
    (if hit "customer" then [lc "customers"] else []) ++
    (if hit "branch" then [lc "branches"] else [])
  if entities = [] then [lc "data"] else entities

end DataManager

namespace QueryEngine

/-- Host `Date` behaviour consumed by the date predicates: `parseVal v`
is `new Date(v).getTime()` (`none` = Invalid Date), `relBoundary u n` is
the epoch time of "now minus `n` of unit `u`". -/
structure DateOracle where
  parseVal : Option JsVal → Option ℤ
  relBoundary : Str → ℚ → ℤ

/-- `v >= bound` under JS semantics when the bound may be `NaN`. -/
def geB (v : ℚ) (bound : Option ℚ) : Bool :=
  match bound with
  | some b => b ≤ v
  | none => false

/-- `v <= bound` under JS semantics when the bound may be `NaN`. -/
def leB (v : ℚ) (bound : Option ℚ) : Bool :=
  match bound with
  | some b => v ≤ b
  | none => false

/-- The comparison switch of `buildNumericPredicate` (the `default`
branch of the `switch` returns `false`). -/
def cmpNum (op : Str) (v : ℚ) (value : Option ℚ) : Bool :=
  if op = lc "=" then value = some v
  else if op = lc ">" then match value with | some w => w < v | none => false
  else if op = lc "<" then match value with | some w => v < w | none => false
  else if op = lc ">=" then geB v value
  else if op = lc "<=" then leB v value
  else false

/-- `buildNumericPredicate` from `queryEngine.js`. -/
def buildNumericPredicate (cond : Cond) : Row → Bool :=
  match cond.field with
  | none => fun _ => false
  | some fk =>
      if cond.op = lc "between" then
        fun row =>
          match coerceNum (getProp row fk) with
          | none => false
          | some v => geB v cond.valueMin && leB v cond.valueMax
      else if cond.op = lc "=" || cond.op = lc ">" || cond.op = lc "<" ||
              cond.op = lc ">=" || cond.op = lc "<=" then
        fun row =>
          match coerceNum (getProp row fk) with
          | none => false
          | some v => cmpNum cond.op v cond.value
      else fun _ => true

/-- `buildDatePredicate` from `queryEngine.js`. -/
def buildDatePredicate (d : DateOracle) (cond : Cond) : Row → Bool :=
  match cond.field with
  | none => fun _ => false
  | some fk =>
      match cond.absoluteDate with
      | some s =>
          match d.parseVal (some (.str s)) with
          | none => fun _ => false
          | some boundary =>
              fun row =>
                match d.parseVal (getProp row fk) with
                | none => false
                | some t =>
                    if cond.op = lc "after" then boundary ≤ t
                    else if cond.op = lc "before" then t ≤ boundary
                    else false
      | none =>
          match cond.relativeTime with
          | none => fun _ => false
          | some rt =>
              let boundary := d.relBoundary rt.unit rt.value
              fun row =>
                match d.parseVal (getProp row fk) with
                | none => false
                | some t =>
                    if cond.op = lc "after" then boundary ≤ t
                    else if cond.op = lc "before" then t ≤ boundary
                    else false

/-- `buildPredicate`. -/
def buildPredicate (d : DateOracle) (cond : Cond) : Row → Bool :=
  if cond.valueType = some (lc "number") then buildNumericPredicate cond
  else if cond.valueType = some (lc "date") then buildDatePredicate d cond
  else fun _ => true

/-- The row-filtering loop shared by the single- and multi-source paths:
`AND` keeps a row when every predicate passes, `OR` when some does, any
other operator keeps everything. -/
def keepRow (d : DateOracle) (logic : Str) (conds : List Cond) (row : Row) : Bool :=
  if logic = lc "AND" then conds.all (fun c => buildPredicate d c row)
  else if logic = lc "OR" then conds.any (fun c => buildPredicate d c row)
  else true

/-- `executeQueryFromSource(queryPlan, source, conditions)` with the row
fetch already performed.  Any condition without a `field` short-circuits
the whole source to the empty result. -/
def executeQueryFromSource (d : DateOracle) (logicalOp : Str) (source : SourceMeta)
    (allRows : List Row) (conds : List Cond) : List Row :=
  if allRows = [] then []
  else
    let logic := if logicalOp = [] then lc "AND" else logicalOp
    if conds.any (fun c => !(strOptTruthy c.field)) then []
    else
      allRows.filterMap (fun row =>
        if keepRow d logic conds row then
          some (setProp row (lc "_sourceId") (.str source.sourceId))
        else none)

/-- `pickSourceForEntity`: first source whose detected entity types
contain the entity (case-insensitively); `null` when none matches. -/
def pickSourceForEntity (entity : Str) (metas : List SourceMeta) : Option SourceMeta :=
  if metas = [] then none
  else
    let le := lowerStr entity
    metas.find? (fun s => (DataManager.detectEntityTypes s).any (fun e2 => lowerStr e2 = le))

/-- One scoring heuristic of `identifyValuationFields`: the alternatives
of the case-insensitive pattern, the score, and the string the source
compares against for the +1 exact bonus (the pattern source with `\\`,
`/` **and the letter `i`** removed, then lower-cased). -/
structure ValuationHeuristic where
  alts : List Str
  score : ℕ
  bonus : Str

/-- The heuristic table of `identifyValuationFields`, in source order. -/
def valuationHeuristics : List ValuationHeuristic :=
  [ ⟨[lc "principal"], 5, lc "prncpal"⟩,
    ⟨[lc "outstanding"], 3, lc "outstandng"⟩,
    ⟨[lc "average", lc "avg"], 3, lc "average|avg"⟩,
    ⟨[lc "balance"], 5, lc "balance"⟩,
    ⟨[lc "amount"], 2, lc "amount"⟩,
    ⟨[lc "value"], 1, lc "value"⟩ ]

/-- Score of one schema field under `identifyValuationFields`. -/
def valuationScore (f : SField) : ℕ :=
  let name := lowerStr f.name
  let id := lowerStr f.id
  valuationHeuristics.foldl (fun acc h =>
    if h.alts.any (fun a => includesStr name a || includesStr id a) then
      acc + h.score + (if name = h.bonus || id = h.bonus then 1 else 0)
    else acc) 0

/-- `identifyValuationFields(sourcesMeta)`: the single best-scoring field
id across the given sources (strictly increasing updates, so the first
field reaching the maximal score wins), or no field at all when nothing
scores above `0`. -/
def identifyValuationFields (e : Env) (metas : List SourceMeta) : List Str :=
  let best := metas.foldl (fun st src =>
    match e.getSchema src.sourceId with
    | none => st
    | some sch =>
        sch.fields.foldl (fun (st' : ℕ × Option Str) f =>
          let s := valuationScore f
          if st'.1 < s then (s, some f.id) else st') st) ((0 : ℕ), (none : Option Str))
  match best.2 with
  | some fid => [fid]
  | none => []

/-- The fixed candidate names of `findUniqueIdentifierField`. -/
def uniqueIdCandidates : List Str :=
  [lc "Portfolio", lc "Portfolio_ID", lc "ID", lc "Customer_ID", lc "Account_ID", lc "Reference"]

/-- `findUniqueIdentifierField(sourcesMeta)`: first `candidateId` field,
else the first fixed candidate name present in some schema, else the
literal `"Portfolio"`. -/
def findUniqueIdentifierField (e : Env) (metas : List SourceMeta) : Str :=
  let fromRole := metas.findSome? (fun src =>
    match e.getSchema src.sourceId with
    | none => none
    | some sch => (sch.fields.find? (fun f => f.roleGuess = lc "candidateId")).map (·.id))
  match fromRole with
  | some fid => fid
  | none =>
      let fromCandidate := uniqueIdCandidates.findSome? (fun cand =>
        if metas.any (fun src =>
            match e.getSchema src.sourceId with
            | none => false
            | some sch => sch.fields.any (fun f => f.id = cand || f.name = cand)) then
          some cand
        else none)
      match fromCandidate with
      | some cand => cand
      | none => lc "Portfolio"

/-- A filtered row tagged with its originating source (the `_source`
property added by `combineMultiSourceResults`, modelled as a separate
component because its value is a source object, not a `JsVal`). -/
structure TaggedRow where
  row : Row
  src : SourceMeta
deriving DecidableEq, Repr

/-- The per-key record of the `grouped` map. -/
structure Group where
  rows : List TaggedRow
  sources : List Str
deriving DecidableEq, Repr

/-- The filtered rows of one queried source. -/
structure SourceResult where
  source : SourceMeta
  rows : List Row
deriving DecidableEq, Repr

/-- Insertion-ordered set insertion (`Set.prototype.add`). -/
def addSet (l : List Str) (x : Str) : List Str :=
  if l.contains x then l else l ++ [x]

/-- Push one row into the `grouped` map (creating the entry on first
sight of the key, appending to `_rows` and `_sources` otherwise). -/
def pushGroup : List (JsVal × Group) → JsVal → TaggedRow → List (JsVal × Group)
  | [], k, tr => [(k, ⟨[tr], [tr.src.sourceId]⟩)]
  | (k', g) :: rest, k, tr =>
      if k' = k then (k', ⟨g.rows ++ [tr], addSet g.sources tr.src.sourceId⟩) :: rest
      else (k', g) :: pushGroup rest k tr

/-- One row of the grouping phase of `combineMultiSourceResults`: rows
whose `uniqueId` value is falsy are skipped (`if (!idValue) continue`),
the others are pushed under their id value. -/
def groupStep (uid : Str) (gs : List (JsVal × Group)) (tr : TaggedRow) :
    List (JsVal × Group) :=
  match getProp tr.row uid with
  | some idv => if jsTruthyV idv then pushGroup gs idv tr else gs
  | none => gs

/-- The grouping phase of `combineMultiSourceResults`. -/
def groupRows (srs : List SourceResult) (uid : Str) : List (JsVal × Group) :=
  srs.foldl (fun gs sr =>
    sr.rows.foldl (fun gs' row => groupStep uid gs' ⟨row, sr.source⟩) gs) []

/-- Sum of one valuation field over the member rows, with `NaN`
coercions skipped (hence contributing nothing). -/
def sumField (trs : List TaggedRow) (f : Str) : ℚ :=
  trs.foldl (fun acc tr =>
    match coerceNum (getProp tr.row f) with
    | some v => acc + v
    | none => acc) 0

/-- First member value of `f` that is neither `null`/`undefined` nor the
empty string (`row[field] != null && row[field] !== ""`). -/
def firstNonEmpty (trs : List TaggedRow) (f : Str) : Option JsVal :=
  trs.findSome? (fun tr =>
    match getProp tr.row f with
    | some v => if v = .null || v = .str [] then none else some v
    | none => none)

/-- One aggregated output row.  `idVal` is the `agg[uniqueId]` property,
`vals` the summed valuation fields, `condVals` the first-non-empty
condition columns; `subRows`, `isAggregated` and `sourceIds` model
`_subRows`, `_isAggregated` and `_sourceIds`. -/
structure AggRow where
  idVal : JsVal
  vals : List (Str × ℚ)
  condVals : List (Str × JsVal)
  isAggregated : Bool
  subRows : List TaggedRow
  sourceIds : List Str
deriving DecidableEq, Repr

/-- `combineMultiSourceResults(sourceResults, uniqueId, columns,
valuationFields, queryPlan)` (the `queryPlan` parameter is unused by the
source). -/
def combineMultiSourceResults (srs : List SourceResult) (uid : Str)
    (columns : List Str) (valuationFields : List Str) : List AggRow :=
  (groupRows srs uid).map (fun kg =>
    let conditionFields := columns.filter (fun c => !(c = uid) && !(valuationFields.contains c))
    { idVal := kg.1
      vals := valuationFields.map (fun f => (f, sumField kg.2.rows f))
      condVals := conditionFields.filterMap (fun f => (firstNonEmpty kg.2.rows f).map ((f, ·)))
      isAggregated := decide (1 < kg.2.rows.length)
      subRows := kg.2.rows
      sourceIds := kg.2.sources })

end QueryEngine

namespace NLP

/-- `ACTION_WORDS`. -/
def actionWords : List Str :=
  [lc "show", lc "find", lc "list", lc "share", lc "calculate", lc "compute", lc "get"]

/-- `STATISTICAL_OPERATIONS`. -/
def statOps : List Str :=
  [lc "mean", lc "average", lc "avg", lc "standard deviation", lc "std dev", lc "stddev",
   lc "std", lc "median", lc "min", lc "minimum", lc "max", lc "maximum", lc "sum",
   lc "count", lc "variance"]

/-- `ENTITY_WORDS`. -/
def entityWords : List Str :=
  [lc "loan", lc "loans", lc "customer", lc "customers", lc "checking", lc "accounts",
   lc "deposits", lc "branch", lc "branches"]

/-- Split on runs of whitespace, exactly like `split(/\s+/)` (a leading
run yields a leading empty piece; no piece is produced after a trailing
run... the JS split yields a trailing empty piece for a trailing run, and
this function reproduces that). -/
def splitWsRuns (s : Str) : List Str :=
  let rec go (fuel : ℕ) (s : Str) : List Str :=
    match fuel with
    | 0 => [s]
    | fuel + 1 =>
        let w := s.takeWhile (fun c => !isWsCh c)
        let rest := s.dropWhile (fun c => !isWsCh c)
        match rest with
        | [] => [w]
        | _ :: _ => w :: go fuel (rest.dropWhile isWsCh)
  go s.length s

/-- `levenshteinDistance` (declared in the source; shadowed for
`calculateSimilarity` but still called directly by the fuzzy entity
matcher).  One DP row per character of `b`. -/
def levNext (bc : Char) : ℕ → List ℕ → Str → List ℕ
  | _, [], _ => []
  | _, [_], _ => []
  | left, pdiag :: pup :: prest, [] =>
      -- unreachable when row and word lengths agree; kept total
      let cell := Min.min (Min.min (left + 1) (pup + 1)) pdiag
      cell :: levNext bc cell (pup :: prest) []
  | left, pdiag :: pup :: prest, ac :: arest =>
      let cell := Min.min (Min.min (left + 1) (pup + 1))
        (pdiag + (if ac = bc then 0 else 1))
      cell :: levNext bc cell (pup :: prest) arest

/-- Full Levenshtein distance `matrix[b.length][a.length]`. -/
def levenshteinDistance (a b : Str) : ℕ :=
  (b.foldl (fun prev bc => (prev.headD 0 + 1) :: levNext bc (prev.headD 0 + 1) prev a)
    (List.range (a.length + 1))).getLastD 0

/-- Insertion-ordered deduplication (a JS `Set` built by iteration). -/
def dedupStr (l : List Str) : List Str :=
  l.foldl (fun acc x => if acc.contains x then acc else acc ++ [x]) []

/-- `calculateSimilarity` – the **second** declaration of that name in
`nlpEngine.js` (word-set Jaccard similarity), which shadows the earlier
Levenshtein-based one for every caller in the file. -/
def calculateSimilarity (s1 s2 : Str) : ℚ :=
  let w1 := dedupStr (splitWsRuns (lowerStr s1))
  let w2 := dedupStr (splitWsRuns (lowerStr s2))
  let inter := (w1.filter (fun x => w2.contains x)).length
  let union := (dedupStr (w1 ++ w2)).length
  (inter : ℚ) / (union : ℚ)

/-- One fuzzy entity match record. -/
structure FuzzyMatch where
  word : Str
  entity : Str
  similarity : ℚ
  distance : ℕ
deriving DecidableEq, Repr

/-- `findFuzzyEntityMatches`. -/
def findFuzzyEntityMatches (promptWords : List Str) (entityWord : Str) : List FuzzyMatch :=
  promptWords.filterMap (fun word =>
    let similarity := calculateSimilarity (lowerStr word) (lowerStr entityWord)
    let distance := levenshteinDistance (lowerStr word) (lowerStr entityWord)
    if (8 : ℚ) / 10 ≤ similarity && distance ≤ 2 then
      some ⟨word, entityWord, similarity, distance⟩
    else none)

/-- `normalizeEntity`. -/
def normalizeEntity (entityWord : Str) : Str :=
  let lower := lowerStr entityWord
  if lower = lc "loan" || lower = lc "loans" then lc "loans"
  else if lower = lc "customer" || lower = lc "customers" then lc "customers"
  else if lower = lc "checking" || lower = lc "accounts" then lc "checking"
  else if lower = lc "deposits" then lc "deposits"
  else if lower = lc "branch" || lower = lc "branches" then lc "branches"
  else lower

/-- Word-boundary test for the position before a pattern that starts
with a word character: start of string or a non-word character. -/
def bBefore (prev : Option Char) : Bool :=
  match prev with
  | none => true
  | some c => !isWordCh c

/-- Word-boundary test after a pattern that ends in a word character:
end of string or a non-word character. -/
def bAfter (t : Str) : Bool :=
  match t with
  | [] => true
  | c :: _ => !isWordCh c

/-- `new RegExp("\\b(" + alts + ")\\b", "i").test(s)` for alternatives
made of word characters, on an already lower-cased string. -/
def testWB (alts : List Str) (s : Str) : Bool :=
  let rec go (prev : Option Char) : Str → Bool
    | [] => false
    | c :: rest =>
        (bBefore prev &&
          alts.any (fun a => a.isPrefixOf (c :: rest) && bAfter ((c :: rest).drop a.length)))
        || go (some c) rest
  go none s

/-- A concept resolution record.  The source also stores a free-text
`reasoning` string and a timestamp; neither is ever read back, so they
are not modelled. -/
structure Resolution where
  concept : Option Str
  confidence : ℚ
  method : Str
deriving DecidableEq, Repr

/-- The failure record `{ concept: null, confidence: 0 }`. -/
def failRes : Resolution := ⟨none, 0, []⟩

/-- The session state: `sessionLearnings` (a map, keyed by fragment) and
`sessionQueryHistory` (chronological, capped at 100). -/
structure Session where
  learnings : List (Str × Resolution)
  history : List (Str × Resolution)
deriving DecidableEq, Repr

/-- The fresh-process session state. -/
def Session.init : Session := ⟨[], []⟩

/-- `Map.prototype.get`. -/
def assocGet (l : List (Str × Resolution)) (k : Str) : Option Resolution :=
  (l.find? (fun p => p.1 = k)).map (·.2)

/-- `Map.prototype.set`: overwrite in place, else append. -/
def assocSet (l : List (Str × Resolution)) (k : Str) (v : Resolution) :
    List (Str × Resolution) :=
  match l with
  | [] => [(k, v)]
  | (k', v') :: rest => if k' = k then (k, v) :: rest else (k', v') :: assocSet rest k v

/-- `learnFromResolution`: record in the learnings map and append to the
(100-capped) history. -/
def learnFromResolution (fragment : Str) (res : Resolution) (s : Session) : Session :=
  let h := s.history ++ [(fragment, res)]
  ⟨assocSet s.learnings fragment res,
   if 100 < h.length then h.drop (h.length - 100) else h⟩

/-- `BANKING_KNOWLEDGE_BASE.domainPatterns`, in declaration order.  Each
entry keeps the raw object key (checked with `fragment.includes(key)` –
note the second key is the literal string `"account|checking|savings"`)
and the condition patterns as (alternatives, target concept). -/
def domainPatterns : List (Str × List (List Str × Str)) :=
  [ (lc "loan",
      [([lc "over", lc "above", lc "greater"], lc "principal"),
       ([lc "under", lc "below", lc "less"], lc "principal"),
       ([lc "in", lc "at"], lc "branch"),
       ([lc "with"], lc "rate"),
       ([lc "from"], lc "branch")]),
    (lc "account|checking|savings",
      [([lc "over", lc "above", lc "greater"], lc "balance"),
       ([lc "under", lc "below", lc "less"], lc "balance"),
       ([lc "in", lc "at"], lc "branch"),
       ([lc "with"], lc "rate"),
       ([lc "type"], lc "class")]),
    (lc "customer",
      [([lc "with"], lc "id"),
       ([lc "in"], lc "branch"),
       ([lc "from"], lc "branch")]),
    (lc "branch",
      [([lc "number"], lc "branch"),
       ([lc "with"], lc "location")]) ]

/-- `linguisticPatterns.nounAdjectives`. -/
def nounAdjectives : List Str :=
  [lc "number", lc "id", lc "code", lc "rate", lc "balance", lc "amount", lc "principal"]

/-- `linguisticPatterns.prepositionHints`, in declaration order. -/
def prepositionHints : List (List Str × Str) :=
  [ ([lc "over", lc "above", lc "greater", lc "more"], lc "numeric_increasing"),
    ([lc "under", lc "below", lc "less", lc "fewer"], lc "numeric_decreasing"),
    ([lc "in", lc "at", lc "from"], lc "location_reference"),
    ([lc "with", lc "having"], lc "attribute_reference"),
    ([lc "number", lc "id", lc "code"], lc "identifier_reference") ]

/-- `resolveWithDomainPatterns`. -/
def resolveWithDomainPatterns (fragment : Str) : Resolution :=
  (domainPatterns.findSome? (fun ep =>
    if includesStr fragment ep.1 || includesStr fragment (ep.1 ++ [ 's' ]) then
      ep.2.findSome? (fun pt =>
        if testWB pt.1 fragment then
          some ⟨some pt.2, 85 / 100, lc "domain_pattern"⟩
        else none)
    else none)).getD failRes

/-- First noun-adjunct pair of a word list: the word preceding the first
word that is a noun adjunct. -/
def findAdjunctBase : List Str → Option Str
  | w1 :: w2 :: rest =>
      if nounAdjectives.contains w2 then some w1 else findAdjunctBase (w2 :: rest)
  | _ => none

/-- `mapHintTypeToConcept`. -/
def mapHintTypeToConcept (hintType : Str) (fragment : Str) : Option Str :=
  if hintType = lc "numeric_increasing" || hintType = lc "numeric_decreasing" then
    some (if includesStr fragment (lc "loan") then lc "principal" else lc "balance")
  else if hintType = lc "location_reference" then some (lc "branch")
  else if hintType = lc "attribute_reference" then
    some (if includesStr fragment (lc "rate") then lc "rate" else lc "balance")
  else if hintType = lc "identifier_reference" then some (lc "id")
  else none

/-- `resolveWithLinguisticAnalysis`. -/
def resolveWithLinguisticAnalysis (fragment : Str) : Resolution :=
  let words := splitWsRuns fragment
  match findAdjunctBase words with
  | some base => ⟨some base, 75 / 100, lc "noun_adjunct"⟩
  | none =>
      (prepositionHints.findSome? (fun ph =>
        if testWB ph.1 fragment then
          (mapHintTypeToConcept ph.2 fragment).map
            (fun c => ⟨some c, 65 / 100, lc "preposition_hint"⟩)
        else none)).getD failRes

/-- `fragment.match(/\$\d/)` – a dollar sign immediately followed by a
digit. -/
def hasDollarDigit : Str → Bool
  | '$' :: c :: _ => isDigitCh c
  | _ :: rest => hasDollarDigit rest
  | [] => false

/-- `fragment.match(/\d+\.?\d*/)` – some digit occurs. -/
def hasDigit (s : Str) : Bool := s.any isDigitCh

/-- `resolveWithContextAnalysis`: weighted hints collected in source
order, stably sorted by weight, best one returned. -/
def resolveWithContextAnalysis (fragment : Str) : Resolution :=
  let inc (w : String) : Bool := includesStr fragment (lc w)
  let contextHints : List (Str × ℚ) :=
    (if inc "principal" || inc "loan" then [(lc "principal", 8 / 10)] else []) ++
    (if inc "balance" || inc "account" then [(lc "balance", 8 / 10)] else []) ++
    (if inc "branch" || inc "location" then [(lc "branch", 8 / 10)] else []) ++
    (if inc "rate" || inc "interest" then [(lc "rate", 7 / 10)] else []) ++
    (if hasDollarDigit fragment || hasDigit fragment then
      (if inc "loan" then [(lc "principal", 6 / 10)] else [(lc "balance", 6 / 10)])
     else [])
  match sortDesc (fun h => h.2) contextHints with
  | [] => failRes
  | best :: _ => ⟨some best.1, best.2, lc "context_analysis"⟩

/-- `resolveWithStatisticalAnalysis`: only with at least 3 history
entries; the most similar (Jaccard > 0.7) past fragment wins, with its
confidence damped to at most 0.55. -/
def resolveWithStatisticalAnalysis (fragment : Str) (s : Session) : Resolution :=
  if s.history.length < 3 then failRes
  else
    let similar := s.history.filter (fun e => (7 : ℚ) / 10 < calculateSimilarity fragment e.1)
    match sortDesc (fun e => calculateSimilarity fragment e.1) similar with
    | [] => failRes
    | best :: _ =>
        ⟨best.2.concept, Min.min (best.2.confidence * 8 / 10) (55 / 100), lc "statistical"⟩

/-- `inferFallbackConcept`. -/
def inferFallbackConcept (fragment : Str) : Str :=
  let inc (w : String) : Bool := includesStr fragment (lc w)
  if inc "branch" then lc "branch"
  else if inc "balance" || inc "account" then lc "balance"
  else if inc "principal" || inc "loan" then lc "principal"
  else if inc "rate" then lc "rate"
  else if inc "amount" then lc "amount"
  else lc "balance"

/-- `intelligentConceptResolution`: cached high-confidence session
learnings, then domain patterns, linguistic analysis, context analysis,
history statistics, and finally the fallback – every non-cached success
is learned into the session. -/
def intelligentConceptResolution (fragment : Str) (s : Session) : Resolution × Session :=
  let fl := jsTrim (lowerStr fragment)
  let cached := assocGet s.learnings fl
  if cached.isSome ∧ (8 : ℚ) / 10 < (cached.getD failRes).confidence then
    (cached.getD failRes, s)
  else
    let domainResult := resolveWithDomainPatterns fl
    if (7 : ℚ) / 10 < domainResult.confidence then
      (domainResult, learnFromResolution fl domainResult s)
    else
      let linguisticResult := resolveWithLinguisticAnalysis fl
      if (6 : ℚ) / 10 < linguisticResult.confidence then
        (linguisticResult, learnFromResolution fl linguisticResult s)
      else
        let contextResult := resolveWithContextAnalysis fl
        if (1 : ℚ) / 2 < contextResult.confidence then
          (contextResult, learnFromResolution fl contextResult s)
        else
          let statisticalResult := resolveWithStatisticalAnalysis fl s
          if (2 : ℚ) / 5 < statisticalResult.confidence then
            (statisticalResult, learnFromResolution fl statisticalResult s)
          else
            let fallbackResult : Resolution := ⟨some (inferFallbackConcept fl), 1 / 5, lc "fallback"⟩
            (fallbackResult, learnFromResolution fl fallbackResult s)

/-- `guessConcept` – the session-stateful concept resolver used for
numeric conditions. -/
def guessConcept (fragment : Str) (s : Session) : Option Str × Session :=
  let (r, s') := intelligentConceptResolution fragment s
  (r.concept, s')

/-- `guessDateConcept` (pure). -/
def guessDateConcept (fragment : Str) : Str :=
  if includesStr fragment (lc "closed") || includesStr fragment (lc "close") then lc "close"
  else if includesStr fragment (lc "opened") || includesStr fragment (lc "open") then lc "open"
  else if includesStr fragment (lc "maturity") then lc "maturity"
  else lc "date"

/-- `\s+` at the head of the string: `none` when no whitespace, else the
remainder after the (greedy) run. -/
def requireWs (t : Str) : Option Str :=
  match t with
  | c :: rest => if isWsCh c then some (rest.dropWhile isWsCh) else none
  | [] => none

/-- Like `requireWs` but also returning the number of characters
consumed. -/
def requireWsN (t : Str) : Option (ℕ × Str) :=
  match t with
  | c :: _ =>
      if isWsCh c then
        let ws := t.takeWhile isWsCh
        some (ws.length, t.drop ws.length)
      else none
  | [] => none

/-- The `[\d,\.]` character class of the numeric captures. -/
def isNumCapCh (c : Char) : Bool := isDigitCh c || c = ',' || c = '.'

/-- `\d+` at the head of the string. -/
def digitsOf (t : Str) : Option Str :=
  let d := t.takeWhile isDigitCh
  if d = [] then none else some d

/-- `Number(cap.replace(/,/g, ""))` on a `[\d,\.]+` capture. -/
def numFromCap (cap : Str) : Option ℚ :=
  jsNumber (cap.filter (fun c => !(c = ',')))

/-- `Math.min` over possibly-`NaN` operands. -/
def minO (a b : Option ℚ) : Option ℚ :=
  match a, b with
  | some x, some y => some (Min.min x y)
  | _, _ => none

/-- `Math.max` over possibly-`NaN` operands. -/
def maxO (a b : Option ℚ) : Option ℚ :=
  match a, b with
  | some x, some y => some (Max.max x y)
  | _, _ => none

/-- The optional `(?:number\s+|no\.?\s+|#\s*)?` noun-adjunct group of
the branch-condition regexes followed by the `(\d+)` capture, with the
backtracking of the optional group modelled by trying the alternatives
and then the empty group in order. -/
def adjunctDigits (t : Str) : Option Str :=
  (if (lc "number").isPrefixOf t then (requireWs (t.drop 6)).bind digitsOf else none) <|>
  (if (lc "no").isPrefixOf t then
      let t1 := t.drop 2
      let t2 := if t1.head? = some '.' then t1.drop 1 else t1
      (requireWs t2).bind digitsOf
    else none) <|>
  (if t.head? = some '#' then digitsOf ((t.drop 1).dropWhile isWsCh) else none) <|>
  digitsOf t

/-- `\s+branch\s+(?:…)?(\d+)` – the common tail of both branch regexes
after the keyword. -/
def branchAfterKw (t : Str) : Option Str :=
  (requireWs t).bind (fun t1 =>
    if (lc "branch").isPrefixOf t1 then
      (requireWs (t1.drop 6)).bind adjunctDigits
    else none)

/-- `(?:in|at)\s+branch\s+(?:…)?(\d+)` anchored at the current
position. -/
def branchKwAt (t : Str) : Option Str :=
  (if (lc "in").isPrefixOf t then branchAfterKw (t.drop 2) else none) <|>
  (if (lc "at").isPrefixOf t then branchAfterKw (t.drop 2) else none)

/-- `branch\s+(?:…)?(\d+)` anchored at the current position. -/
def branchBareAt (t : Str) : Option Str :=
  if (lc "branch").isPrefixOf t then (requireWs (t.drop 6)).bind adjunctDigits
  else none

/-- `(?:of\s+)?type\s+(\d+)` anchored at the current position (the
greedy optional `of` branch is tried first). -/
def typeAt (t : Str) : Option Str :=
  (if (lc "of").isPrefixOf t then
      (requireWs (t.drop 2)).bind (fun t1 =>
        if (lc "type").isPrefixOf t1 then (requireWs (t1.drop 4)).bind digitsOf else none)
    else none) <|>
  (if (lc "type").isPrefixOf t then (requireWs (t.drop 4)).bind digitsOf else none)

/-- Leftmost match of `matchAt` at a position preceded by a word
boundary (for patterns starting with a word character). -/
def scanWB {α : Type} (matchAt : Str → Option α) (s : Str) : Option α :=
  let rec go (prev : Option Char) : Str → Option α
    | [] => none
    | c :: rest => (if bBefore prev then matchAt (c :: rest) else none) <|> go (some c) rest
  go none s

/-- Leftmost match of `matchAt` at any position, together with its
index. -/
def scanAny {α : Type} (matchAt : Str → Option α) (s : Str) : Option (ℕ × α) :=
  let rec go (idx : ℕ) : Str → Option (ℕ × α)
    | [] => none
    | c :: rest =>
        match matchAt (c :: rest) with
        | some a => some (idx, a)
        | none => go (idx + 1) rest
  go 0 s

/-- `between\s+\$?([\d,\.]+)\s+and\s+\$?([\d,\.]+)` anchored at the
current position: total length and the two captures.  The character
classes of adjacent pieces are disjoint, so greedy matching needs no
backtracking. -/
def betweenAt (t : Str) : Option (ℕ × Str × Str) :=
  if (lc "between").isPrefixOf t then
    (requireWsN (t.drop 7)).bind (fun w1 =>
      let (d1, t2) := if w1.2.head? = some '$' then (1, w1.2.drop 1) else (0, w1.2)
      let n1 := t2.takeWhile isNumCapCh
      if n1 = [] then none
      else
        (requireWsN (t2.drop n1.length)).bind (fun w2 =>
          if (lc "and").isPrefixOf w2.2 then
            (requireWsN (w2.2.drop 3)).bind (fun w3 =>
              let (d2, t6) := if w3.2.head? = some '$' then (1, w3.2.drop 1) else (0, w3.2)
              let n2 := t6.takeWhile isNumCapCh
              if n2 = [] then none
              else some (7 + w1.1 + d1 + n1.length + w2.1 + 3 + w3.1 + d2 + n2.length, n1, n2))
          else none))
  else none

/-- All matches of the global `\bbetween\s+\$?([\d,\.]+)\s+and\s+\$?([\d,\.]+)`
regex: (start index, length, capture 1, capture 2), scanning resuming
after each match. -/
def betweenScanGo (fuel : ℕ) (prev : Option Char) (idx : ℕ) (t : Str) :
    List (ℕ × ℕ × Str × Str) :=
  match fuel, t with
  | 0, _ => []
  | _, [] => []
  | fuel + 1, c :: rest =>
      match (if bBefore prev then betweenAt (c :: rest) else none) with
      | some m =>
          let matched := (c :: rest).take m.1
          (idx, m.1, m.2.1, m.2.2) ::
            betweenScanGo fuel matched.getLast? (idx + m.1) ((c :: rest).drop m.1)
      | none => betweenScanGo fuel (some c) (idx + 1) rest

/-- All global between matches of a string. -/
def betweenScanAll (s : Str) : List (ℕ × ℕ × Str × Str) :=
  betweenScanGo (s.length + 1) none 0 s

/-- `(?:greater than|over|…)\s+\$?([\d,\.]+)` (resp. the `less`
family) anchored at the current position: length and capture. -/
def cmpAt (alts : List Str) (t : Str) : Option (ℕ × Str) :=
  alts.findSome? (fun a =>
    if a.isPrefixOf t then
      (requireWsN (t.drop a.length)).bind (fun w =>
        let (d, t2) := if w.2.head? = some '$' then (1, w.2.drop 1) else (0, w.2)
        let n := t2.takeWhile isNumCapCh
        if n = [] then none
        else some (a.length + w.1 + d + n.length, n))
    else none)

/-- The `>` comparison alternatives, in alternation order. -/
def gtAlts : List Str :=
  [lc "greater than", lc "over", lc "above", lc "more than", lc "higher than",
   lc "bigger than", lc "larger than"]

/-- The `<` comparison alternatives, in alternation order. -/
def ltAlts : List Str :=
  [lc "less than", lc "under", lc "below", lc "fewer than", lc "smaller than",
   lc "lower than"]

/-- `last\s+(\d+)\s+(month|months|year|years|day|days)` anchored at the
current position: the numeric capture and the unit word. -/
def timeAt (t : Str) : Option (Str × Str) :=
  if (lc "last").isPrefixOf t then
    (requireWs (t.drop 4)).bind (fun t1 =>
      (digitsOf t1).bind (fun d =>
        (requireWs (t1.drop d.length)).bind (fun t2 =>
          ([lc "month", lc "months", lc "year", lc "years", lc "day", lc "days"].findSome?
            (fun u => if u.isPrefixOf t2 then some (d, u) else none)))))
  else none

/-- Last `n` elements (`Array.prototype.slice(-n)`). -/
def takeLastN {α : Type} (n : ℕ) (l : List α) : List α := l.drop (l.length - n)

/-- `extractConditionContext`: the last three whitespace-separated words
before the match, a space, and the matched text.  (The source also
computes an unused windowed substring.) -/
def extractConditionContext (fragment : Str) (matchIndex matchLength : ℕ) : Str :=
  let beforeMatch := fragment.take matchIndex
  let wordsBefore := (splitWsRuns beforeMatch).filter (fun w => 0 < w.length)
  let lastFewWords := List.intercalate (lc " ") (takeLastN 3 wordsBefore)
  lastFewWords ++ [' '] ++ (fragment.drop matchIndex).take matchLength

/-- `parseConditionFragment`, threading the concept-resolution session
through the `guessConcept` calls of the between / greater / less
branches, in source order. -/
def parseConditionFragment (fragment : Str) (s : Session) : List Cond × Session :=
  let branchConds : List Cond :=
    match scanWB branchKwAt fragment <|> scanWB branchBareAt fragment with
    | some d => [{ concept := some (lc "branch"), op := lc "=",
                   value := some (digitsToNat d : ℚ), valueType := some (lc "number") }]
    | none => []
  let typeConds : List Cond :=
    match scanWB typeAt fragment with
    | some d => [{ concept := some (lc "type"), op := lc "=",
                   value := some (digitsToNat d : ℚ), valueType := some (lc "number") }]
    | none => []
  let (betweenConds, s1) : List Cond × Session :=
    match scanAny betweenAt fragment with
    | some m =>
        let (concept, s') := guessConcept (extractConditionContext fragment m.1 m.2.1) s
        ([{ concept := concept, op := lc "between",
            valueMin := minO (numFromCap m.2.2.1) (numFromCap m.2.2.2),
            valueMax := maxO (numFromCap m.2.2.1) (numFromCap m.2.2.2),
            valueType := some (lc "number") }], s')
    | none => ([], s)
  let (gtConds, s2) : List Cond × Session :=
    match scanAny (cmpAt gtAlts) fragment with
    | some m =>
        let (concept, s') := guessConcept (extractConditionContext fragment m.1 m.2.1) s1
        ([{ concept := concept, op := lc ">", value := numFromCap m.2.2,
            valueType := some (lc "number") }], s')
    | none => ([], s1)
  let (ltConds, s3) : List Cond × Session :=
    match scanAny (cmpAt ltAlts) fragment with
    | some m =>
        let (concept, s') := guessConcept (extractConditionContext fragment m.1 m.2.1) s2
        ([{ concept := concept, op := lc "<", value := numFromCap m.2.2,
            valueType := some (lc "number") }], s')
    | none => ([], s2)
  let timeConds : List Cond :=
    match scanAny timeAt fragment with
    | some m =>
        let unit :=
          if (lc "year").isPrefixOf m.2.2 then lc "years"
          else if (lc "day").isPrefixOf m.2.2 then lc "days"
          else lc "months"
        [{ concept := some (guessDateConcept fragment), op := lc "after",
           relativeTime := some ⟨unit, (digitsToNat m.2.1 : ℚ)⟩,
           valueType := some (lc "date") }]
    | none => []
  (branchConds ++ typeConds ++ betweenConds ++ gtConds ++ ltConds ++ timeConds, s3)

/-- `parseBetweenConditions(text)`: every global between match of the
lower-cased text becomes a condition whose concept is guessed from a
±50-character window of the original text around the match. -/
def parseBetweenConditions (text : Str) (s : Session) : List Cond × Session :=
  (betweenScanAll (lowerStr text)).foldl
    (fun (acc : List Cond × Session) m =>
      let startPos := m.1
      let endPos := m.1 + m.2.1
      let context := (text.drop (startPos - 50)).take (endPos + 50 - (startPos - 50))
      let (concept, s') := guessConcept context acc.2
      (acc.1 ++ [{ concept := concept, op := lc "between",
                   valueMin := minO (numFromCap m.2.2.1) (numFromCap m.2.2.2),
                   valueMax := maxO (numFromCap m.2.2.1) (numFromCap m.2.2.2),
                   valueType := some (lc "number") }], s'))
    ([], s)

/-- Delete the given (ascending, disjoint) index spans from a string. -/
def removeSpans : Str → ℕ → List (ℕ × ℕ) → Str
  | s, _, [] => s
  | s, idx, (st, len) :: rest =>
      s.take (st - idx) ++ removeSpans (s.drop (st - idx + len)) (st + len) rest

/-- One `remainingText.replace(betweenRegex, '').trim()` application of
the between-clause removal (the regex is case-insensitive, hence the
matches are located on the lower-cased copy). -/
def removeBetweenOnce (s : Str) : Str :=
  jsTrim (removeSpans s 0 ((betweenScanAll (lowerStr s)).map (fun m => (m.1, m.2.1))))

/-- Split on `\b(?:and|or)\b`. -/
def splitAndOrGo (fuel : ℕ) (prev : Option Char) (cur : Str) (t : Str) : List Str :=
  match fuel, t with
  | 0, _ => [cur.reverse ++ t]
  | _, [] => [cur.reverse]
  | fuel + 1, c :: rest =>
      if bBefore prev && (lc "and").isPrefixOf (c :: rest) && bAfter ((c :: rest).drop 3) then
        cur.reverse :: splitAndOrGo fuel (some 'd') [] ((c :: rest).drop 3)
      else if bBefore prev && (lc "or").isPrefixOf (c :: rest) && bAfter ((c :: rest).drop 2) then
        cur.reverse :: splitAndOrGo fuel (some 'r') [] ((c :: rest).drop 2)
      else splitAndOrGo fuel (some c) (c :: cur) rest

/-- `str.split(/\b(?:and|or)\b/)`. -/
def splitAndOr (s : Str) : List Str := splitAndOrGo (s.length + 1) none [] s

/-- A function located by the registry's `findFunctionByDescription`. -/
structure FoundFunction where
  library : Str
  functionName : Str
  description : Str
deriving DecidableEq, Repr

/-- The `functionCall` plan entry. -/
structure FunctionCall where
  library : Str
  functionName : Str
  description : Str
deriving DecidableEq, Repr

/-- The host environment of the NLP engine: the function registry (a
separate module) and the `Date` built-ins.  `mkDate y m d` models
`new Date(y, m, d).getTime()` and `isoOf` models `toISOString`. -/
structure Host where
  functionRegistryPresent : Bool
  findFunctionByDescription : Str → Option FoundFunction
  functionLibrary : Option (List (Str × List (Str × Str)))
  nativeDate : Str → Option ℤ
  mkDate : ℤ → ℤ → ℤ → Option ℤ
  isoOf : ℤ → Str

/-- `replace(/\s+/g, " ")`. -/
def collapseWs (s : Str) : Str := List.intercalate (lc " ") (splitWsRuns s)

/-- A `[\/\-\.]` date separator. -/
def isDateSep (c : Char) : Bool := c = '/' || c = '-' || c = '.'

/-- `^(\d{1,2})[\/\-\.](\d{1,2})[\/\-\.](\d{2,4})$` as month/day/year. -/
def numericDateMatch (s : Str) : Option (ℕ × ℕ × ℕ) :=
  let d1 := s.takeWhile isDigitCh
  if d1 = [] || 2 < d1.length then none
  else
    match s.drop d1.length with
    | c1 :: r1 =>
        if !isDateSep c1 then none
        else
          let d2 := r1.takeWhile isDigitCh
          if d2 = [] || 2 < d2.length then none
          else
            match r1.drop d2.length with
            | c2 :: r2 =>
                if !isDateSep c2 then none
                else
                  let d3 := r2.takeWhile isDigitCh
                  if r2.drop d3.length ≠ [] || d3.length < 2 || 4 < d3.length then none
                  else some (digitsToNat d1, digitsToNat d2, digitsToNat d3)
            | [] => none
    | [] => none

/-- `^(\d{4})[\/\-\.](\d{1,2})[\/\-\.](\d{1,2})$` as year/month/day. -/
def isoDateMatch (s : Str) : Option (ℕ × ℕ × ℕ) :=
  let d1 := s.takeWhile isDigitCh
  if d1.length ≠ 4 then none
  else
    match s.drop 4 with
    | c1 :: r1 =>
        if !isDateSep c1 then none
        else
          let d2 := r1.takeWhile isDigitCh
          if d2 = [] || 2 < d2.length then none
          else
            match r1.drop d2.length with
            | c2 :: r2 =>
                if !isDateSep c2 then none
                else
                  let d3 := r2.takeWhile isDigitCh
                  if r2.drop d3.length ≠ [] || d3 = [] || 2 < d3.length then none
                  else some (digitsToNat d1, digitsToNat d2, digitsToNat d3)
            | [] => none
    | [] => none

/-- The month-name alternatives of `parseDateString`, in alternation
order (each with its greedy long form first). -/
def monthAlts : List Str :=
  [lc "january", lc "jan", lc "february", lc "feb", lc "march", lc "mar",
   lc "april", lc "apr", lc "may", lc "june", lc "jun", lc "july", lc "jul",
   lc "august", lc "aug", lc "september", lc "sept", lc "sep",
   lc "october", lc "oct", lc "november", lc "nov", lc "december", lc "dec"]

/-- The canonical three-letter month prefixes used by `findIndex`. -/
def monthNames : List Str :=
  [lc "jan", lc "feb", lc "mar", lc "apr", lc "may", lc "jun", lc "jul",
   lc "aug", lc "sep", lc "oct", lc "nov", lc "dec"]

/-- `"Month Day, Year"` form: the matched month name, day and year. -/
def monthNameMatch (s : Str) : Option (Str × ℕ × ℕ) :=
  monthAlts.findSome? (fun m =>
    if lowerStr (s.take m.length) = m then
      (requireWs (s.drop m.length)).bind (fun t1 =>
        let d := t1.takeWhile isDigitCh
        if d = [] || 2 < d.length then none
        else
          let t2 := t1.drop d.length
          let t3 :=
            if (lc "st").isPrefixOf (lowerStr (t2.take 2)) ||
               (lc "nd").isPrefixOf (lowerStr (t2.take 2)) ||
               (lc "rd").isPrefixOf (lowerStr (t2.take 2)) ||
               (lc "th").isPrefixOf (lowerStr (t2.take 2)) then t2.drop 2 else t2
          let t4 := if t3.head? = some ',' then t3.drop 1 else t3
          (requireWs t4).bind (fun t5 =>
            let y := t5.takeWhile isDigitCh
            if y.length = 4 && t5.drop 4 = [] then some (m, digitsToNat d, digitsToNat y)
            else none))
    else none)

/-- `parseDateString` from `nlpEngine.js`: native parse (host oracle),
then the numeric, ISO-ish and month-name fallbacks. -/
def parseDateString (h : Host) (text : Str) : Option ℤ :=
  if text = [] then none
  else
    let cleaned := collapseWs ((jsTrim text).map (fun c => if c = ',' then ' ' else c))
    match h.nativeDate cleaned with
    | some d => some d
    | none =>
        match numericDateMatch cleaned with
        | some m =>
            let year := if m.2.2 < 100 then m.2.2 + 2000 else m.2.2
            h.mkDate year (m.1 - 1) m.2.1
        | none =>
            match isoDateMatch cleaned with
            | some m => h.mkDate m.1 (m.2.1 - 1) m.2.2
            | none =>
                match monthNameMatch cleaned with
                | some m =>
                    match (List.range monthNames.length).find? (fun i =>
                        (monthNames.getD i []).isPrefixOf m.1) with
                    | some month => h.mkDate m.2.1 month m.2.2
                    | none => none
                | none => none

/-- `lit.isPrefixOf` modulo ASCII case of the subject string. -/
def prefixCI (lit t : Str) : Bool := lowerStr (t.take lit.length) = lit

/-- The `[0-9a-zA-Z\/\-\.,\s]` character class of the date-text
capture. -/
def isDateTextCh (c : Char) : Bool :=
  isDigitCh c || ('a' ≤ c && c ≤ 'z') || ('A' ≤ c && c ≤ 'Z') ||
  c = '/' || c = '-' || c = '.' || c = ',' || isWsCh c

/-- The `(?=\s+(?:and|or)\b|$)` lookahead of the date-condition regex. -/
def dateLookahead (t : Str) : Bool :=
  (match requireWs t with
   | some t' =>
       (prefixCI (lc "and") t' && bAfter (t'.drop 3)) ||
       (prefixCI (lc "or") t' && bAfter (t'.drop 2))
   | none => false) || t = []

/-- The lazy `([0-9a-zA-Z\/\-\.,\s]+?)` capture: the shortest non-empty
valid-character run after which the lookahead holds. -/
def dateTextScan (fuel : ℕ) (acc : Str) (t : Str) : Option Str :=
  match fuel, t with
  | 0, _ => none
  | _, [] => none
  | fuel + 1, c :: rest =>
      if !isDateTextCh c then none
      else
        let acc' := acc ++ [c]
        if dateLookahead rest then some acc' else dateTextScan fuel acc' rest

/-- The optional field-word alternatives of the date-condition regex,
in alternation order. -/
def dateFieldAlts : List Str :=
  [lc "opened", lc "open", lc "closed", lc "close", lc "matured", lc "maturity"]

/-- `(before|after)\s+(datetext)` anchored at the current position:
operator word, captured date text and consumed length. -/
def dateOpAt (t : Str) : Option (Str × Str × ℕ) :=
  let op? : Option (Str × ℕ) :=
    if prefixCI (lc "before") t then some (lc "before", 6)
    else if prefixCI (lc "after") t then some (lc "after", 5)
    else none
  op?.bind (fun ow =>
    (requireWsN (t.drop ow.2)).bind (fun w =>
      (dateTextScan (w.2.length + 1) [] w.2).map (fun cap =>
        (ow.1, cap, ow.2 + w.1 + cap.length))))

/-- The full date-condition pattern anchored at the current position:
optional (greedy) field word, operator, date text, total length. -/
def dateCondAt (t : Str) : Option (Option Str × Str × Str × ℕ) :=
  (dateFieldAlts.findSome? (fun fw =>
    if prefixCI fw t then
      (requireWsN (t.drop fw.length)).bind (fun w =>
        (dateOpAt w.2).map (fun m => (some fw, m.1, m.2.1, fw.length + w.1 + m.2.2)))
    else none)) <|>
  ((dateOpAt t).map (fun m => ((none : Option Str), m.1, m.2.1, m.2.2)))

/-- The `regex.exec` loop of `extractDateConditions`, with the
`lastField` carry-over. -/
def extractDateGo (h : Host) (fuel : ℕ) (prev : Option Char) (t : Str)
    (lastField : Option Str) (acc : List Cond) : List Cond :=
  match fuel, t with
  | 0, _ => acc
  | _, [] => acc
  | fuel + 1, c :: rest =>
      match (if bBefore prev then dateCondAt (c :: rest) else none) with
      | some m =>
          let fieldWord : Option Str :=
            match m.1 with
            | some fw => some fw
            | none => lastField
          let lastField' : Option Str :=
            match m.1 with
            | some fw => some fw
            | none => lastField
          let len := m.2.2.2
          let matched := (c :: rest).take len
          let t' := (c :: rest).drop len
          match fieldWord with
          | none => extractDateGo h fuel matched.getLast? t' lastField' acc
          | some fwv =>
              match parseDateString h (jsTrim m.2.2.1) with
              | none => extractDateGo h fuel matched.getLast? t' lastField' acc
              | some d =>
                  let concept :=
                    if includesStr fwv (lc "open") then lc "open"
                    else if includesStr fwv (lc "close") then lc "close"
                    else lc "maturity"
                  extractDateGo h fuel matched.getLast? t' lastField'
                    (acc ++ [{ concept := some concept,
                               op := if m.2.1 = lc "before" then lc "before" else lc "after",
                               valueType := some (lc "date"),
                               absoluteDate := some (h.isoOf d) }])
      | none => extractDateGo h fuel (some c) rest lastField acc

/-- `extractDateConditions(text)`. -/
def extractDateConditions (h : Host) (text : Str) : List Cond :=
  if text = [] then []
  else extractDateGo h (text.length + 1) none text none []

/-- `extractFieldFromPhrase`. -/
def extractFieldFromPhrase (phrase : Str) : Str :=
  let lower := lowerStr phrase
  let inc (w : String) : Bool := includesStr lower (lc w)
  if inc "rate" || inc "rates" then lc "rate"
  else if inc "balance" || inc "balances" then lc "balance"
  else if inc "principal" then lc "principal"
  else if inc "amount" then lc "amount"
  else if inc "payment" then lc "payment"
  else if inc "charge" || inc "charges" then lc "charge"
  else
    match (splitWsRuns lower).find? (fun w =>
        !(w = lc "loan") && !(w = lc "loans") && !(w = lc "checking") &&
        !(w = lc "account") && !(w = lc "accounts")) with
    | some w => w
    | none => phrase

/-- `\bOP\s+of\s+([^\s]+(?:\s+[^\s]+)*)` anchored at the current
position of the lower-cased prompt: the capture is the rest of the
string up to the last non-whitespace character. -/
def statOpAt (op : Str) (t : Str) : Option Str :=
  if op.isPrefixOf t then
    (requireWs (t.drop op.length)).bind (fun t1 =>
      if (lc "of").isPrefixOf t1 then
        (requireWs (t1.drop 2)).bind (fun t2 =>
          let cap := (t2.reverse.dropWhile isWsCh).reverse
          if cap = [] then none else some cap)
      else none)
  else none

/-- The statistical-operation detection loop of `parsePrompt`: the first
operation (in vocabulary order) whose pattern matches anywhere. -/
def scanStatOps (text : Str) : Option Str × Option Str :=
  let lower := lowerStr text
  match statOps.findSome? (fun op => (scanWB (statOpAt op) lower).map (fun cap => (op, cap))) with
  | some oc => (some oc.1, some (extractFieldFromPhrase oc.2))
  | none => (none, none)

/-- The intent-classification block of `parsePrompt` (part of the file's
latest revision): explicit leading action verb, the `customers with`
special case, then implicit `show` on a banking noun. -/
def classifyIntent (lower : Str) : Str × ℚ :=
  let fromAction : Option Str :=
    actionWords.findSome? (fun a =>
      if (a ++ [' ']).isPrefixOf lower || (a ++ [ 's', ' ' ]).isPrefixOf lower then
        some (if a = lc "calculate" || a = lc "compute" then lc "show" else a)
      else none)
  let i1 : Str × ℚ :=
    match fromAction with
    | some i => (i, 95 / 100)
    | none => (lc "show", 1 / 2)
  let i2 : Str × ℚ :=
    if (lc "customers with").isPrefixOf lower then (lc "show", 9 / 10) else i1
  if i2.2 < 8 / 10 then
    if [lc "loan", lc "customer", lc "checking", lc "account", lc "branch",
        lc "balance", lc "rate"].any (fun w => includesStr lower w) then
      (lc "show", 8 / 10)
    else i2
  else i2

/-- One entity match of the enhanced entity extraction. -/
structure EntityMatch where
  entity : Str
  confidence : ℚ
  matchType : Str
  matchedWord : Option Str
  originalEntity : Option Str
deriving DecidableEq, Repr

/-- The entity-extraction block of `parsePrompt`: exact substring
matches, then fuzzy matches for entities not already found, stably
sorted by confidence and de-duplicated by entity, with the
branch-condition fallback. -/
def extractEntities (lower : Str) (hasBranchCondition branchInCondition : Bool) :
    List EntityMatch :=
  let promptWords := splitWsRuns lower
  let exactMatches : List EntityMatch := entityWords.filterMap (fun ew =>
    if includesStr lower ew then
      if (ew = lc "branch" || ew = lc "branches") && (hasBranchCondition || branchInCondition)
      then none
      else some ⟨normalizeEntity ew, 1, lc "exact", some ew, none⟩
    else none)
  let foundEntities := exactMatches.map (·.entity)
  let fuzzyMatches : List EntityMatch := entityWords.flatMap (fun ew =>
    if foundEntities.contains (normalizeEntity ew) then []
    else
      (findFuzzyEntityMatches promptWords ew).filterMap (fun m =>
        if normalizeEntity ew = lc "branches" && (hasBranchCondition || branchInCondition)
        then none
        else some ⟨normalizeEntity ew, m.similarity * 8 / 10, lc "fuzzy", some m.word, some ew⟩))
  let sorted := sortDesc (·.confidence) (exactMatches ++ fuzzyMatches)
  let unique := sorted.foldl
    (fun (acc : List EntityMatch) m =>
      if (acc.map (·.entity)).contains m.entity then acc else acc ++ [m]) []
  if unique = [] && (hasBranchCondition || branchInCondition) then
    [⟨lc "branches", 9 / 10, lc "condition_fallback", none, none⟩]
  else unique

/-- The stop-word list of `getAllFunctionKeywords`. -/
def stopWordsList : List Str :=
  [lc "the", lc "and", lc "or", lc "but", lc "in", lc "on", lc "at", lc "to", lc "for",
   lc "of", lc "with", lc "by", lc "an", lc "a", lc "is", lc "are", lc "was", lc "were",
   lc "be", lc "been", lc "being", lc "have", lc "has", lc "had", lc "do", lc "does",
   lc "did", lc "will", lc "would", lc "could", lc "should", lc "may", lc "might",
   lc "must", lc "can", lc "this", lc "that", lc "these", lc "those", lc "i", lc "you",
   lc "he", lc "she", lc "it", lc "we", lc "they", lc "me", lc "him", lc "her", lc "us",
   lc "them", lc "my", lc "your", lc "his", lc "its", lc "our", lc "their", lc "what",
   lc "which", lc "who", lc "when", lc "where", lc "why", lc "how", lc "calculate",
   lc "compute", lc "find", lc "get", lc "determine", lc "measure", lc "estimate"]

/-- Adjacent pair and triple keyword combinations of the description
words, interleaved as in the source loop. -/
def wordCombos : List Str → List Str
  | w1 :: w2 :: w3 :: rest =>
      (w1 ++ [' '] ++ w2) :: (w1 ++ [' '] ++ w2 ++ [' '] ++ w3) :: wordCombos (w2 :: w3 :: rest)
  | [w1, w2] => [w1 ++ [' '] ++ w2]
  | _ => []

/-- `getAllFunctionKeywords()`: keyword set derived from the function
libraries' descriptions and names, sorted by length descending. -/
def getAllFunctionKeywords (h : Host) : List Str :=
  match h.functionLibrary with
  | none => []
  | some libs =>
      let adds := libs.flatMap (fun lib =>
        lib.2.flatMap (fun fn =>
          let descWords := (splitWsRuns
              ((lowerStr fn.2).map (fun c => if isWordCh c || isWsCh c then c else ' '))).filter
            (fun w => 3 ≤ w.length && !(stopWordsList.contains w))
          let fnLower := lowerStr fn.1
          descWords ++ wordCombos descWords ++ [fnLower] ++
          [lc "average " ++ fnLower, lc "mean " ++ fnLower, lc "calculate " ++ fnLower,
           fnLower ++ lc " of", lc "find " ++ fnLower]))
      sortDesc (fun s => (s.length : ℚ)) (dedupStr adds)

/-- Adjacent word pairs (`words[i] + ' ' + words[i+1]`). -/
def bigrams : List Str → List Str
  | w1 :: w2 :: rest => (w1 ++ [' '] ++ w2) :: bigrams (w2 :: rest)
  | _ => []

/-- The function-call detection block of `parsePrompt`: only with the
registry present and no statistical operation, gated on computation
verbs or aggregation nouns with find/get, skipped for multi-entity
plans; keyword containment first, then bigram lookups. -/
def detectFunctionCall (h : Host) (lower : Str) (statisticalOp : Option Str)
    (finalTargetEntities : List Str) : Option FunctionCall :=
  if h.functionRegistryPresent && statisticalOp = none then
    let inc (w : String) : Bool := includesStr lower (lc w)
    let hasExplicitFunctionIntent :=
      inc "calculate" || inc "compute" || inc "determine" || inc "measure" || inc "estimate"
    let hasFunctionPattern :=
      inc "average" || inc "mean" || inc "total" || inc "sum" || inc "count" ||
      inc "minimum" || inc "maximum" || inc "standard deviation"
    let hasFunctionIntent :=
      hasExplicitFunctionIntent || (hasFunctionPattern && (inc "find" || inc "get"))
    let isMultiEntityQuery := 1 < finalTargetEntities.length
    if hasFunctionIntent && !isMultiEntityQuery then
      let fromKeywords := (getAllFunctionKeywords h).findSome? (fun kw =>
        if includesStr lower (lowerStr kw) then
          (h.findFunctionByDescription kw).map (fun f => FunctionCall.mk f.library f.functionName f.description)
        else none)
      match fromKeywords with
      | some fc => some fc
      | none =>
          (bigrams (splitWsRuns lower)).findSome? (fun ph =>
            (h.findFunctionByDescription ph).map (fun f => FunctionCall.mk f.library f.functionName f.description))
    else none
  else none

/-- A parsed query plan.  The early (empty-prompt) return leaves the
statistical/function/entity-detail properties absent, which coincides
with the `none`/`[]` defaults.  `uniqueId`/`columns` are only ever added
by later pipeline stages. -/
structure Plan where
  intent : Option Str
  targetEntities : List Str
  conditions : List Cond
  logicalOp : Str
  statisticalOp : Option Str := none
  statisticalField : Option Str := none
  functionCall : Option FunctionCall := none
  raw : Str
  entityDetails : List EntityMatch := []
  uniqueId : Option Str := none
  columns : Option (List Str) := none
deriving DecidableEq, Repr

/-- Insertion-ordered de-duplication of the final entity list
(`Array.from(new Set(...))`). -/
def dedupEntities (l : List Str) : List Str := dedupStr l

/-- The body of `parsePrompt` after the initial
`const text = (prompt || "").trim()`, as a function of the trimmed
text. -/
def parsePromptT (h : Host) (text : Str) (s : Session) : Plan × Session :=
  if text = [] then
    ({ intent := none, targetEntities := [], conditions := [],
       logicalOp := lc "AND", raw := text }, s)
  else
    let lower := lowerStr text
    let stat := scanStatOps text
    let intent := classifyIntent lower
    let logicalOp :=
      if includesStr lower (lc " and ") then lc "AND"
      else if includesStr lower (lc " or ") then lc "OR"
      else lc "AND"
    let (betweenConditions, s1) := parseBetweenConditions text s
    let remainingText := removeBetweenOnce^[betweenConditions.length] text
    let parts := ((splitAndOr (lowerStr remainingText)).map jsTrim).filter (fun p => !(p = []))
    let (conditions, s2) := parts.foldl
      (fun (acc : List Cond × Session) part =>
        let (cs, s') := parseConditionFragment part acc.2
        (acc.1 ++ cs, s'))
      (([] : List Cond), s1)
    let dateConditions := extractDateConditions h text
    let allConditions := betweenConditions ++ conditions ++ dateConditions
    let hasBranchCondition := allConditions.any (fun c => c.concept = some (lc "branch"))
    let branchInCondition := (scanWB branchKwAt (lowerStr text)).isSome
    let targetEntities := extractEntities lower hasBranchCondition branchInCondition
    let finalTargetEntities := targetEntities.map (·.entity)
    let functionCall := detectFunctionCall h lower stat.1 finalTargetEntities
    ({ intent := some intent.1,
       targetEntities := dedupEntities finalTargetEntities,
       conditions := allConditions,
       logicalOp := logicalOp,
       statisticalOp := stat.1,
       statisticalField := stat.2,
       functionCall := functionCall,
       raw := text,
       entityDetails := targetEntities }, s2)

/-- `parsePrompt(prompt)` from the latest `nlpEngine.js` revision, with
the concept-resolution session threaded explicitly. -/
def parsePrompt (h : Host) (prompt : Str) (s : Session) : Plan × Session :=
  parsePromptT h (jsTrim prompt) s

end NLP

namespace QueryEngine

/-- The result object of `executeMultiSourceQuery` (the early
no-sources return carries only `rows` and `usedSources`). -/
structure MultiResult where
  rows : List AggRow
  usedSources : List SourceMeta
  uniqueId : Option Str := none
  columns : Option (List Str) := none
  valuationFields : Option (List Str) := none
deriving DecidableEq, Repr

/-- The `matchedSources` filter of `executeMultiSourceQuery`: sources
whose first detected entity type, or name, is among the target
entities. -/
def matchedSources (e : Env) (targetEntities : List Str) : List SourceMeta :=
  if targetEntities = [] then e.sourcesMeta
  else
    e.sourcesMeta.filter (fun s =>
      targetEntities.contains (lowerStr ((DataManager.detectEntityTypes s).headD [])) ||
      targetEntities.contains (lowerStr s.name))

/-- The source-selection loop of `executeMultiSourceQuery`: one source
per target entity (entities without a matching source are skipped). -/
def sourcesToQueryOf (e : Env) (targetEntities : List Str) : List SourceMeta :=
  targetEntities.filterMap (fun entity => pickSourceForEntity entity e.sourcesMeta)

/-- The per-source pipeline of `executeMultiSourceQuery`: sources whose
schema is missing are skipped, the shared condition list is re-mapped
per source, and the single-source filter runs on the mapped
conditions. -/
def sourceResultsOf (d : DateOracle) (e : Env) (meta : Option (List Str))
    (logicalOp : Str) (allConditions : List Cond) (sourcesToQuery : List SourceMeta) :
    List SourceResult :=
  sourcesToQuery.filterMap (fun src =>
    match e.getSchema src.sourceId with
    | none => none
    | some sch =>
        let mappedConditions :=
          ConceptMapper.mapConceptsToFields (some sch) meta allConditions
        some ⟨src, executeQueryFromSource d logicalOp src
                (e.getAllRows src.sourceId) mappedConditions⟩)

/-- `executeMultiSourceQuery(queryPlan, sourcesMeta)` over the storage
environment, with the per-source condition re-mapping of the shared
condition list (`meta` is the translator-registry key set passed through
to the concept mapper). -/
def executeMultiSourceQuery (d : DateOracle) (e : Env) (meta : Option (List Str))
    (plan : NLP.Plan) : MultiResult :=
  let targetEntities := plan.targetEntities
  let uniqueId :=
    match plan.uniqueId with
    | some u => if u = [] then findUniqueIdentifierField e e.sourcesMeta else u
    | none => findUniqueIdentifierField e e.sourcesMeta
  let columns := plan.columns.getD []
  let valuationFields := (matchedSources e targetEntities).foldl
    (fun acc src => (identifyValuationFields e [src]).foldl addSet acc) []
  let sourcesToQuery := sourcesToQueryOf e targetEntities
  if sourcesToQuery = [] then { rows := [], usedSources := [] }
  else
    let sourceResults :=
      sourceResultsOf d e meta plan.logicalOp plan.conditions sourcesToQuery
    let combined := combineMultiSourceResults sourceResults uniqueId columns valuationFields
    { rows := combined, usedSources := sourcesToQuery,
      uniqueId := some uniqueId, columns := some columns,
      valuationFields := some valuationFields }

/-- All filtered rows of a multi-source run, tagged with their source,
in processing order. -/
def taggedRowsOf (srs : List SourceResult) : List TaggedRow :=
  srs.flatMap (fun sr => sr.rows.map (fun r => ⟨r, sr.source⟩))

/-- The grouping key of a row: its `uniqueId` value when truthy,
nothing otherwise. -/
def rowKey (uid : Str) (tr : TaggedRow) : Option JsVal :=
  match getProp tr.row uid with
  | some v => if jsTruthyV v then some v else none
  | none => none

/-- The member rows of the group keyed by `k`: all tagged rows whose
(truthy) `uniqueId` value equals `k`, in processing order. -/
def memberRows (srs : List SourceResult) (uid : Str) (k : JsVal) : List TaggedRow :=
  (taggedRowsOf srs).filter (fun tr => decide (rowKey uid tr = some k))

end QueryEngine

/-- `a <= b` under JS semantics when either operand may be `NaN`
(`none`): any comparison against `NaN` is false. -/
def jsLeO (a b : Option ℚ) : Bool :=
  match a, b with
  | some x, some y => x ≤ y
  | _, _ => false

namespace Fixtures

/-- A trivial date oracle (no date conditions are exercised). -/
def d0 : QueryEngine.DateOracle := ⟨fun _ => none, fun _ _ => 0⟩

/-- A minimal host: registry present but resolving nothing, no
function library, inert `Date` built-ins. -/
def h0 : NLP.Host := ⟨true, fun _ => none, none, fun _ => none, fun _ _ _ => none, fun _ => []⟩

def loansMeta : SourceMeta := ⟨lc "L1", lc "loans", lc "loans.csv"⟩

def checkMeta : SourceMeta := ⟨lc "C1", lc "checking", lc "checking.csv"⟩

def loansSchema : Schema := ⟨[
  ⟨lc "Portfolio", lc "Portfolio", lc "integer", lc "candidateId"⟩,
  ⟨lc "Principal", lc "Principal", lc "currency", lc "field"⟩,
  ⟨lc "Rate", lc "Rate", lc "currency", lc "field"⟩,
  ⟨lc "Branch", lc "Branch", lc "integer", lc "field"⟩]⟩

def checkSchema : Schema := ⟨[
  ⟨lc "Portfolio", lc "Portfolio", lc "integer", lc "candidateId"⟩,
  ⟨lc "Balance", lc "Balance", lc "currency", lc "field"⟩,
  ⟨lc "Branch", lc "Branch", lc "integer", lc "field"⟩]⟩

def loanRow1 : Row :=
  [(lc "Portfolio", .str (lc "1")), (lc "Principal", .str (lc "$100")),
   (lc "Rate", .str (lc "6")), (lc "Branch", .str (lc "4"))]

def loanRow2 : Row :=
  [(lc "Portfolio", .str (lc "2")), (lc "Principal", .str (lc "200")),
   (lc "Rate", .str (lc "4")), (lc "Branch", .str (lc "4"))]

/-- A row whose unique-identifier value is the empty string (falsy). -/
def loanRowFalsy : Row :=
  [(lc "Portfolio", .str []), (lc "Principal", .str (lc "300")),
   (lc "Rate", .str (lc "5")), (lc "Branch", .str (lc "4"))]

def checkRow1 : Row :=
  [(lc "Portfolio", .str (lc "1")), (lc "Balance", .str (lc "50")),
   (lc "Branch", .str (lc "4"))]

def env0 : Env := ⟨[loansMeta, checkMeta],
  [(lc "L1", loansSchema), (lc "C1", checkSchema)],
  [(lc "L1", [loanRow1, loanRow2]), (lc "C1", [checkRow1])]⟩

def planBranch : NLP.Plan :=
  { intent := some (lc "show"),
    targetEntities := [lc "loans", lc "checking"],
    conditions := [{ concept := some (lc "branch"), op := lc "=", value := some 4,
                     valueType := some (lc "number") }],
    logicalOp := lc "AND", raw := lc "x" }

def planRate : NLP.Plan :=
  { intent := some (lc "show"),
    targetEntities := [lc "loans", lc "checking"],
    conditions := [{ concept := some (lc "rate"), op := lc ">", value := some 5,
                     valueType := some (lc "number") }],
    logicalOp := lc "AND", raw := lc "x" }

/-- Source results feeding `combineMultiSourceResults` directly, with a
falsy-keyed row among the loans rows. -/
def srs9 : List QueryEngine.SourceResult :=
  [⟨loansMeta, [loanRow1, loanRowFalsy]⟩, ⟨checkMeta, [checkRow1]⟩]

/-- Source results without the falsy-keyed row. -/
def srs2 : List QueryEngine.SourceResult :=
  [⟨loansMeta, [loanRow1, loanRow2]⟩, ⟨checkMeta, [checkRow1]⟩]

/-- The prompt of the session-dependence counterexample: two fragments
over the same word set, the first carrying a noun-adjunct pair
(`z amount` → concept `z`), the second falling through to the fallback
concept (`amount`) on a fresh session but to the history-based
statistical resolution (`z`) once the first parse has populated the
session history. -/
def x5 : Str := lc "z amount bigger than , and amount z bigger than ,"

def run5a : NLP.Plan × NLP.Session := NLP.parsePrompt h0 x5 NLP.Session.init

def run5b : NLP.Plan × NLP.Session := NLP.parsePrompt h0 run5a.1.raw run5a.2

def cond8 : Cond :=
  { concept := some (lc "balance"), op := lc "between", valueMin := some 5,
    valueMax := some 1, valueType := some (lc "number"), field := some (lc "B") }

def row8 : Row := [(lc "B", .str (lc "5"))]

def cond7 : Cond :=
  { concept := some (lc "branch number"), op := lc "=", value := some 4,
    valueType := some (lc "number") }

end Fixtures

/-! ## Theorems -/

/-- Auxiliary: a left fold of `(+)` over rationals equals the starting
value plus the list sum. -/
theorem foldl_add_eq_sum (l : List ℚ) : ∀ a : ℚ, l.foldl (· + ·) a = a + l.sum := by
  induction l with
  | nil => intro a; simp
  | cons x xs ih => intro a; simp [ih, List.sum_cons]; ring

/-- C4 helper: the statistics share one validity filter; a list whose
valid numbers are `[v]` takes the one-element branches. -/
theorem mode_singleton (values : List JsVal) (v : ℚ)
    (h : Statistical.nums values = [v]) : Statistical.mode values = some v := by
  have hko : Statistical.keyOrder [v] = [v] := by
    by_cases hik : Statistical.isIndexKey v = true
    · simp [Statistical.keyOrder, Statistical.dedupQ, sortAscQ, insAsc, hik]
    · simp [Statistical.keyOrder, Statistical.dedupQ, sortAscQ, insAsc, hik]
  simp [Statistical.mode, h, hko]

/-- **C4** — Statistics boundary behaviour, amended to the code: with
zero valid (non-null, numeric) values, `mean`, `standardDeviation`,
`median`, `min`, `max`, `mode` and `variance` return `null`, while
`sum` returns the number `0`; `count` counts the non-null, non-empty
entries and returns the number `0` when there are none.  On exactly one
valid value, `standardDeviation` and `variance` return `0` and `mode`
returns that value. -/
theorem C4_statistics_boundary (values : List JsVal) (sqrt : ℚ → ℚ) (v : ℚ) :
    (Statistical.nums values = [] →
      Statistical.mean values = none ∧
      Statistical.standardDeviation sqrt values = none ∧
      Statistical.median values = none ∧
      Statistical.min values = none ∧
      Statistical.max values = none ∧
      Statistical.mode values = none ∧
      Statistical.variance values = none ∧
      Statistical.sum values = 0) ∧
    ((∀ w ∈ values, w = JsVal.null ∨ w = JsVal.str []) → Statistical.count values = 0) ∧
    (Statistical.nums values = [v] →
      Statistical.standardDeviation sqrt values = some 0 ∧
      Statistical.variance values = some 0 ∧
      Statistical.mode values = some v) := by
  refine ⟨fun h => ?_, fun h => ?_, fun h => ?_⟩
  · refine ⟨?_, ?_, ?_, ?_, ?_, ?_, ?_, ?_⟩ <;>
      simp [Statistical.mean, Statistical.standardDeviation, Statistical.median,
        Statistical.min, Statistical.max, Statistical.mode, Statistical.variance,
        Statistical.sum, sortAscQ, h]
  · rw [Statistical.count, List.length_eq_zero, List.filter_eq_nil_iff]
    intro w hw
    rcases h w hw with h1 | h1 <;> simp [h1]
  · refine ⟨?_, ?_, mode_singleton values v h⟩ <;>
      simp [Statistical.standardDeviation, Statistical.variance, h]

/-- C4 witness: the empty-valid-values facts at `[null]` and the
single-value facts at `[7]`, via `C4_statistics_boundary`. -/
theorem C4_statistics_boundary_witness :
    (Statistical.nums [JsVal.null] = [] ∧
      Statistical.mean [JsVal.null] = none ∧
      Statistical.sum [JsVal.null] = 0 ∧
      Statistical.count [JsVal.null] = 0) ∧
    (Statistical.nums [JsVal.num 7] = [7] ∧
      Statistical.standardDeviation id [JsVal.num 7] = some 0 ∧
      Statistical.variance [JsVal.num 7] = some 0 ∧
      Statistical.mode [JsVal.num 7] = some 7) := by
  have h1 := (C4_statistics_boundary [JsVal.null] id 0).1 (by decide)
  have h2 := (C4_statistics_boundary [JsVal.null] id 0).2.1 (by decide)
  have h3 := (C4_statistics_boundary [JsVal.num 7] id 7).2.2 (by decide)
  exact ⟨⟨by decide, h1.1, h1.2.2.2.2.2.2.2, h2⟩, ⟨by decide, h3.1, h3.2.1, h3.2.2⟩⟩

/-- C4 counterexample: on a list with zero valid values the claim says
every library function returns `null`, but `sum` returns the **number**
`0` and `count` the **number** `0` (contrast `mean`, which does return
`null`). -/
theorem C4_sum_count_counterexample :
    Statistical.sum [JsVal.null] = 0 ∧ Statistical.count [JsVal.null] = 0 ∧
    Statistical.mean [JsVal.null] = none := by
  decide

/-- **C6** — `loanProfit`: `0` for an absent (`undefined`/`null`)
principal or rate and for a non-positive coerced principal; otherwise a
rate above `1` is divided by `100`, the term defaults to `12` months
when absent or invalid and is clamped to `[1, 360]`, and the result is
`principal · rate · (term/12)` rounded to two decimals. -/
theorem C6_loanProfit_spec (principal rate termMonths : Option JsVal) (pv rv : ℚ) :
    (Financial.loanProfit none rate termMonths = 0) ∧
    (Financial.loanProfit (some JsVal.null) rate termMonths = 0) ∧
    (Financial.loanProfit principal none termMonths = 0) ∧
    (Financial.loanProfit principal (some JsVal.null) termMonths = 0) ∧
    (Financial.toNumber principal = some pv → pv ≤ 0 →
      Financial.loanProfit principal rate termMonths = 0) ∧
    (Financial.toNumber principal = some pv → 0 < pv →
      Financial.toNumber rate = some rv →
      Financial.loanProfit principal rate termMonths =
        round2 (pv * (if 1 < rv then rv / 100 else rv) *
          (Financial.loanProfitTerm termMonths / 12))) ∧
    (1 ≤ Financial.loanProfitTerm termMonths ∧ Financial.loanProfitTerm termMonths ≤ 360) ∧
    (termMonths = none → Financial.loanProfitTerm termMonths = 12) := by
  have hterm : 1 ≤ Financial.loanProfitTerm termMonths ∧
      Financial.loanProfitTerm termMonths ≤ 360 := by
    unfold Financial.loanProfitTerm
    constructor
    · exact le_max_left 1 _
    · exact max_le (by norm_num) (min_le_right _ 360)
  refine ⟨by simp [Financial.loanProfit], by simp [Financial.loanProfit],
    by simp [Financial.loanProfit], by simp [Financial.loanProfit], ?_, ?_, hterm, ?_⟩
  · intro hp hple
    match principal, rate with
    | none, _ => simp [Financial.toNumber] at hp
    | some JsVal.null, _ => simp [Financial.toNumber] at hp
    | some (JsVal.num q), none => simp [Financial.loanProfit]
    | some (JsVal.str s), none => simp [Financial.loanProfit]
    | some (JsVal.num q), some JsVal.null => simp [Financial.loanProfit]
    | some (JsVal.str s), some JsVal.null => simp [Financial.loanProfit]
    | some (JsVal.num q), some (JsVal.num r) =>
        simp only [Financial.loanProfit]
        simp only [Financial.toNumber] at hp ⊢
        cases hp
        simp [hple, not_lt.mpr hple]
    | some (JsVal.num q), some (JsVal.str r) =>
        simp only [Financial.loanProfit]
        simp only [Financial.toNumber] at hp ⊢
        cases hp
        cases hjr : jsNumber (stripNonNumeric r) <;>
          simp [hjr, hple, not_lt.mpr hple]
    | some (JsVal.str s), some (JsVal.num r) =>
        simp only [Financial.loanProfit]
        simp only [Financial.toNumber] at hp ⊢
        simp [hp, hple, not_lt.mpr hple]
    | some (JsVal.str s), some (JsVal.str r) =>
        simp only [Financial.loanProfit]
        simp only [Financial.toNumber] at hp ⊢
        cases hjr : jsNumber (stripNonNumeric r) <;>
          simp [hjr, hp, hple, not_lt.mpr hple]
  · intro hp hppos hr
    have hpn : principal ≠ none := by rintro rfl; simp [Financial.toNumber] at hp
    have hpnn : principal ≠ some JsVal.null := by
      rintro rfl; simp [Financial.toNumber] at hp
    have hrn : rate ≠ none := by rintro rfl; simp [Financial.toNumber] at hr
    have hrnn : rate ≠ some JsVal.null := by
      rintro rfl; simp [Financial.toNumber] at hr
    simp [Financial.loanProfit, hpn, hpnn, hrn, hrnn, hp, hr, not_le.mpr hppos]
  · rintro rfl
    decide

/-- C6 witness: `loanProfit("1,000", "5%")` with a missing term –
principal `1000`, percent rate `0.05`, default term `12`, profit `50`. -/
theorem C6_loanProfit_spec_witness :
    Financial.toNumber (some (JsVal.str (lc "1,000"))) = some 1000 ∧
    (0 : ℚ) < 1000 ∧
    Financial.toNumber (some (JsVal.str (lc "5%"))) = some 5 ∧
    Financial.loanProfit (some (JsVal.str (lc "1,000"))) (some (JsVal.str (lc "5%"))) none =
      round2 (1000 * ((5 : ℚ) / 100) * (Financial.loanProfitTerm none / 12)) ∧
    Financial.loanProfit (some (JsVal.str (lc "1,000"))) (some (JsVal.str (lc "5%"))) none = 50 := by
  have ht : Financial.toNumber (some (JsVal.str (lc "1,000"))) = some 1000 :=
    of_decide_eq_true (by with_unfolding_all rfl)
  have hr : Financial.toNumber (some (JsVal.str (lc "5%"))) = some 5 :=
    of_decide_eq_true (by with_unfolding_all rfl)
  have h := (C6_loanProfit_spec (some (JsVal.str (lc "1,000"))) (some (JsVal.str (lc "5%")))
    none 1000 5).2.2.2.2.2.1 ht (by norm_num) hr
  refine ⟨ht, by norm_num, hr, ?_, ?_⟩
  · simpa using h
  · rw [h]; exact of_decide_eq_true (by with_unfolding_all rfl)

/-- **C8 (amended)** — A resolved between condition includes both
endpoints **provided** `valueMin ≤ valueMax` (which the prompt parser
guarantees for the conditions it produces): a row whose coerced field
value equals `valueMin` or `valueMax` satisfies the predicate. -/
theorem C8_between_inclusive (cond : Cond) (f : Str) (a b v : ℚ) (row : Row)
    (hop : cond.op = lc "between") (hf : cond.field = some f)
    (hmin : cond.valueMin = some a) (hmax : cond.valueMax = some b)
    (hv : coerceNum (getProp row f) = some v)
    (hends : v = a ∨ v = b) (hab : a ≤ b) :
    QueryEngine.buildNumericPredicate cond row = true := by
  rw [QueryEngine.buildNumericPredicate, hf, hop]
  simp only [if_pos rfl, hmin, hmax]
  rcases hends with rfl | rfl
  · simp [QueryEngine.geB, QueryEngine.leB, hv, hab]
  · simp [QueryEngine.geB, QueryEngine.leB, hv, hab]

/-- C8 witness: `Balance between 500 and 5000` keeps a `$500` row
(lower endpoint, inclusive). -/
theorem C8_between_inclusive_witness :
    ({ Fixtures.cond8 with valueMin := some 500, valueMax := some 5000 } : Cond).op = lc "between" ∧
    coerceNum (getProp [(lc "B", JsVal.str (lc "$500"))] (lc "B")) = some 500 ∧
    QueryEngine.buildNumericPredicate
      { Fixtures.cond8 with valueMin := some 500, valueMax := some 5000 }
      [(lc "B", JsVal.str (lc "$500"))] = true := by
  refine ⟨by decide, of_decide_eq_true (by with_unfolding_all rfl), ?_⟩
  exact C8_between_inclusive _ (lc "B") 500 5000 500 _ (by decide) (by decide)
    (by decide) (by decide) (of_decide_eq_true (by with_unfolding_all rfl)) (Or.inl rfl)
    (by norm_num)

/-- C8 counterexample: a resolved between condition with
`valueMin = 5 > 1 = valueMax` **rejects** the row whose coerced value
`5` equals `valueMin`, so the claim fails as stated (without the
`valueMin ≤ valueMax` proviso). -/
theorem C8_between_counterexample :
    Fixtures.cond8.op = lc "between" ∧
    Fixtures.cond8.valueMin = some 5 ∧
    coerceNum (getProp Fixtures.row8 (lc "B")) = some 5 ∧
    QueryEngine.buildNumericPredicate Fixtures.cond8 Fixtures.row8 = false :=
  of_decide_eq_true (by with_unfolding_all rfl)

/-- **C7** — For a condition without a `function` or `translated`
marker, when some schema field's name equals the noun-adjunct-stripped
base noun of the concept (case-insensitively) and its data type is
compatible with the condition's value type, the concept mapper assigns
that field's id immediately – the semantic-group scoring never runs, so
the exact base-noun match takes priority over it (the conclusion is
fully determined without reference to any score). -/
theorem C7_base_noun_priority (sch : Schema) (meta : Option (List Str)) (cond : Cond)
    (c : Str) (f : SField) (conds : List Cond)
    (hfields : sch.fields ≠ [])
    (hfn : cond.func = none) (htr : cond.translated = false)
    (hc : cond.concept = some c) (hcne : c ≠ [])
    (hfind : sch.fields.find?
      (ConceptMapper.exactBaseNounPred cond (ConceptMapper.extractBaseNoun c)) = some f) :
    ConceptMapper.mapCondition sch meta cond = { cond with field := some f.id } ∧
    ConceptMapper.mapConceptsToFields (some sch) meta conds =
      conds.map (ConceptMapper.mapCondition sch meta) := by
  constructor
  · rw [ConceptMapper.mapCondition]
    simp [hfn, htr, hc, hcne, strOptTruthy, hfind]
  · rw [ConceptMapper.mapConceptsToFields]
    simp [hfields]

/-- C7 witness: concept `"branch number"` with a numeric value type maps
to the `Branch` field of the loans schema via the base noun `"branch"`. -/
theorem C7_base_noun_priority_witness :
    ConceptMapper.extractBaseNoun (lc "branch number") = lc "branch" ∧
    Fixtures.loansSchema.fields.find?
      (ConceptMapper.exactBaseNounPred Fixtures.cond7
        (ConceptMapper.extractBaseNoun (lc "branch number"))) =
      some ⟨lc "Branch", lc "Branch", lc "integer", lc "field"⟩ ∧
    ConceptMapper.mapCondition Fixtures.loansSchema none Fixtures.cond7 =
      { Fixtures.cond7 with field := some (lc "Branch") } := by
  refine ⟨by decide, by decide, ?_⟩
  exact (C7_base_noun_priority Fixtures.loansSchema none Fixtures.cond7
    (lc "branch number") ⟨lc "Branch", lc "Branch", lc "integer", lc "field"⟩ []
    (by decide) (by decide) (by decide) (by decide) (by decide) (by decide)).1

/-- **C3 (amended)** — `parsePrompt` is a total function of the prompt
text (the embedding never fails), and an empty or whitespace-only
prompt yields the plan with no entities, no conditions, logical
operator `AND` and **`intent = null`** (not `"show"`: the `"show"`
default only applies to non-empty prompts); the session state is left
untouched. -/
theorem C3_empty_prompt (h : NLP.Host) (prompt : Str) (s : NLP.Session)
    (he : jsTrim prompt = []) :
    NLP.parsePrompt h prompt s =
      ({ intent := none, targetEntities := [], conditions := [],
         logicalOp := lc "AND", raw := [] }, s) := by
  rw [NLP.parsePrompt, he, NLP.parsePromptT]
  simp

/-- C3 witness: the whitespace-only prompt `"   "`. -/
theorem C3_empty_prompt_witness :
    jsTrim (lc "   ") = [] ∧
    NLP.parsePrompt Fixtures.h0 (lc "   ") NLP.Session.init =
      ({ intent := none, targetEntities := [], conditions := [],
         logicalOp := lc "AND", raw := [] }, NLP.Session.init) :=
  ⟨by decide, C3_empty_prompt Fixtures.h0 (lc "   ") NLP.Session.init (by decide)⟩

/-- C3 counterexample: on the empty prompt the parser's `intent` is
`null`, not the claimed default `"show"`. -/
theorem C3_empty_intent_counterexample :
    (NLP.parsePrompt Fixtures.h0 [] NLP.Session.init).1.intent = none ∧
    ¬ (NLP.parsePrompt Fixtures.h0 [] NLP.Session.init).1.intent = some (lc "show") := by
  decide

namespace QueryEngine

/-- A key produced by `rowKey` is a truthy `uniqueId` value. -/
theorem rowKey_truthy {uid : Str} {tr : TaggedRow} {k : JsVal}
    (h : rowKey uid tr = some k) : jsTruthyV k = true := by
  unfold rowKey at h
  cases hg : getProp tr.row uid with
  | none => rw [hg] at h; cases h
  | some v =>
      rw [hg] at h
      by_cases ht : jsTruthyV v = true
      · simp only [ht, if_true] at h
        cases h; exact ht
      · simp only [ht, if_false] at h
        cases h

/-- A row whose `uniqueId` value is falsy has no grouping key. -/
theorem rowKey_none_of_falsy {uid : Str} {tr : TaggedRow}
    (h : jsTruthy (getProp tr.row uid) = false) : rowKey uid tr = none := by
  unfold rowKey
  cases hg : getProp tr.row uid with
  | none => rfl
  | some v =>
      rw [hg] at h
      simp [jsTruthyV, h]

/-- `groupStep` skips a row without a grouping key. -/
theorem groupStep_none {uid : Str} {gs : List (JsVal × Group)} {tr : TaggedRow}
    (h : rowKey uid tr = none) : groupStep uid gs tr = gs := by
  unfold rowKey at h
  unfold groupStep
  cases hg : getProp tr.row uid with
  | none => rfl
  | some v =>
      rw [hg] at h
      by_cases ht : jsTruthyV v = true
      · simp only [ht, if_true] at h; cases h
      · simp [ht]

/-- `groupStep` pushes a row with grouping key `k` under `k`. -/
theorem groupStep_some {uid : Str} {gs : List (JsVal × Group)} {tr : TaggedRow} {k : JsVal}
    (h : rowKey uid tr = some k) : groupStep uid gs tr = pushGroup gs k tr := by
  unfold rowKey at h
  unfold groupStep
  cases hg : getProp tr.row uid with
  | none => rw [hg] at h; cases h
  | some v =>
      rw [hg] at h
      by_cases ht : jsTruthyV v = true
      · simp only [ht, if_true] at h
        cases h; simp [ht]
      · simp only [ht, if_false] at h
        cases h

/-- Pushing a fresh key appends a fresh singleton group. -/
theorem pushGroup_not_mem {gs : List (JsVal × Group)} {k : JsVal} {tr : TaggedRow}
    (h : k ∉ gs.map Prod.fst) :
    pushGroup gs k tr = gs ++ [(k, ⟨[tr], [tr.src.sourceId]⟩)] := by
  induction gs with
  | nil => rfl
  | cons p rest ih =>
      have hne : ¬ p.1 = k := by
        intro he; exact h (by simp [he])
      have hrest : k ∉ rest.map Prod.fst := by
        intro hm; exact h (by simp [hm])
      cases p with
      | mk k' g => simpa [pushGroup, (by simpa using hne : ¬ k' = k)] using ih hrest

/-- Mapping a first-component-preserving update over a list without the
key leaves it unchanged. -/
theorem map_if_not_mem {k : JsVal} (f : JsVal × Group → JsVal × Group)
    (l : List (JsVal × Group)) (h : k ∉ l.map Prod.fst) :
    l.map (fun p => if p.1 = k then f p else p) = l := by
  induction l with
  | nil => rfl
  | cons p rest ih =>
      have hne : ¬ p.1 = k := fun he => h (by simp [he])
      have hrest : k ∉ rest.map Prod.fst := fun hm => h (by simp [hm])
      simp [hne, ih hrest]

/-- Pushing an existing key (under distinct keys) updates exactly its
entry. -/
theorem pushGroup_mem {gs : List (JsVal × Group)} {k : JsVal} {tr : TaggedRow}
    (hnd : (gs.map Prod.fst).Nodup) (hmem : k ∈ gs.map Prod.fst) :
    pushGroup gs k tr = gs.map (fun p =>
      if p.1 = k then (p.1, ⟨p.2.rows ++ [tr], addSet p.2.sources tr.src.sourceId⟩) else p) := by
  induction gs with
  | nil => cases hmem
  | cons p rest ih =>
      rw [List.map_cons] at hnd
      obtain ⟨hni, hnd2⟩ := List.nodup_cons.mp hnd
      cases p with
      | mk k' g =>
          by_cases he : k' = k
          · subst he
            simp [pushGroup, map_if_not_mem _ rest hni]
          · have hmem' : k ∈ rest.map Prod.fst := by
              rw [List.map_cons] at hmem
              rcases List.mem_cons.mp hmem with he2 | hq'
              · exact absurd he2.symm he
              · exact hq'
            simp [pushGroup, he, ih hnd2 hmem']

/-- The full invariant of the grouping fold: every group holds exactly
the processed rows with its key, the keys are distinct and truthy, and
every processed keyed row has its key present. -/
theorem groupFold_invariant (uid : Str) (trs : List TaggedRow) :
    ∀ (gs : List (JsVal × Group)) (processed : List TaggedRow),
    (∀ p ∈ gs, p.2.rows = processed.filter (fun tr => decide (rowKey uid tr = some p.1))) →
    ((gs.map Prod.fst).Nodup) →
    (∀ k ∈ gs.map Prod.fst, jsTruthyV k = true) →
    (∀ tr ∈ processed, ∀ k, rowKey uid tr = some k → k ∈ gs.map Prod.fst) →
    (∀ p ∈ trs.foldl (groupStep uid) gs,
        p.2.rows = (processed ++ trs).filter (fun tr => decide (rowKey uid tr = some p.1))) ∧
    (((trs.foldl (groupStep uid) gs).map Prod.fst).Nodup) ∧
    (∀ k ∈ (trs.foldl (groupStep uid) gs).map Prod.fst, jsTruthyV k = true) := by
  induction trs with
  | nil =>
      intro gs processed h1 h2 h3 _
      simp only [List.foldl_nil, List.append_nil]
      exact ⟨h1, h2, h3⟩
  | cons tr rest ih =>
      intro gs processed h1 h2 h3 h4
      have step : ∀ (gs' : List (JsVal × Group)),
          gs' = groupStep uid gs tr →
          (∀ p ∈ gs', p.2.rows = (processed ++ [tr]).filter
            (fun tr' => decide (rowKey uid tr' = some p.1))) ∧
          ((gs'.map Prod.fst).Nodup) ∧
          (∀ k ∈ gs'.map Prod.fst, jsTruthyV k = true) ∧
          (∀ tr' ∈ processed ++ [tr], ∀ k, rowKey uid tr' = some k →
              k ∈ gs'.map Prod.fst) := by
        intro gs' hgs'
        cases hk : rowKey uid tr with
        | none =>
            rw [groupStep_none hk] at hgs'
            subst hgs'
            refine ⟨?_, h2, h3, ?_⟩
            · intro p hp
              rw [h1 p hp, List.filter_append]
              simp [hk]
            · intro tr' htr' k hkk
              rcases List.mem_append.mp htr' with h | h
              · exact h4 tr' h k hkk
              · rcases List.mem_singleton.mp h with rfl
                rw [hk] at hkk; cases hkk
        | some k0 =>
            rw [groupStep_some hk] at hgs'
            by_cases hmem : k0 ∈ gs.map Prod.fst
            · rw [pushGroup_mem h2 hmem] at hgs'
              subst hgs'
              refine ⟨?_, ?_, ?_, ?_⟩
              · intro p hp
                rcases List.mem_map.mp hp with ⟨q, hq, hqe⟩
                by_cases hqk : q.1 = k0
                · rw [if_pos hqk] at hqe
                  subst hqe
                  rw [List.filter_append]
                  simp only [h1 q hq, hqk]
                  simp [hk]
                · rw [if_neg hqk] at hqe
                  subst hqe
                  rw [List.filter_append, h1 q hq]
                  have : ¬ (rowKey uid tr = some q.1) := by
                    rw [hk]; intro hc; exact hqk (by injection hc with h; exact h.symm)
                  simp [this]
              · have : (gs.map (fun p => if p.1 = k0 then
                    ((p.1, ⟨p.2.rows ++ [tr], addSet p.2.sources tr.src.sourceId⟩) :
                      JsVal × Group) else p)).map Prod.fst = gs.map Prod.fst := by
                  rw [List.map_map]
                  refine List.map_congr_left (fun p _ => ?_)
                  by_cases hqk : p.1 = k0 <;> simp [hqk]
                rw [this]; exact h2
              · intro k hkm
                have : (gs.map (fun p => if p.1 = k0 then
                    ((p.1, ⟨p.2.rows ++ [tr], addSet p.2.sources tr.src.sourceId⟩) :
                      JsVal × Group) else p)).map Prod.fst = gs.map Prod.fst := by
                  rw [List.map_map]
                  refine List.map_congr_left (fun p _ => ?_)
                  by_cases hqk : p.1 = k0 <;> simp [hqk]
                rw [this] at hkm; exact h3 k hkm
              · intro tr' htr' k hkk
                have : (gs.map (fun p => if p.1 = k0 then
                    ((p.1, ⟨p.2.rows ++ [tr], addSet p.2.sources tr.src.sourceId⟩) :
                      JsVal × Group) else p)).map Prod.fst = gs.map Prod.fst := by
                  rw [List.map_map]
                  refine List.map_congr_left (fun p _ => ?_)
                  by_cases hqk : p.1 = k0 <;> simp [hqk]
                rw [this]
                rcases List.mem_append.mp htr' with h | h
                · exact h4 tr' h k hkk
                · rcases List.mem_singleton.mp h with rfl
                  rw [hk] at hkk
                  injection hkk with h'
                  subst h'; exact hmem
            · rw [pushGroup_not_mem hmem] at hgs'
              subst hgs'
              refine ⟨?_, ?_, ?_, ?_⟩
              · intro p hp
                rcases List.mem_append.mp hp with h | h
                · have hne : ¬ (rowKey uid tr = some p.1) := by
                    rw [hk]
                    intro hc
                    injection hc with h'
                    exact hmem (h' ▸ List.mem_map.mpr ⟨p, h, rfl⟩)
                  rw [List.filter_append, h1 p h]
                  simp [hne]
                · rcases List.mem_singleton.mp h with rfl
                  have hnone : processed.filter
                      (fun tr' => decide (rowKey uid tr' = some k0)) = [] := by
                    rw [List.filter_eq_nil_iff]
                    intro tr' htr' hdec
                    exact hmem (h4 tr' htr' k0 (of_decide_eq_true hdec))
                  rw [List.filter_append, hnone]
                  simp [hk]
              · rw [List.map_append, List.nodup_append]
                refine ⟨h2, List.nodup_singleton k0, ?_⟩
                intro a ha hb
                simp only [List.map_cons, List.map_nil, List.mem_singleton] at hb
                subst hb
                exact hmem ha
              · intro k hkm
                rw [List.map_append] at hkm
                rcases List.mem_append.mp hkm with h | h
                · exact h3 k h
                · simp only [List.map_cons, List.map_nil, List.mem_singleton] at h
                  subst h
                  exact rowKey_truthy hk
              · intro tr' htr' k hkk
                rcases List.mem_append.mp htr' with h | h
                · exact List.map_append Prod.fst gs _ ▸
                    List.mem_append.mpr (Or.inl (h4 tr' h k hkk))
                · rcases List.mem_singleton.mp h with rfl
                  rw [hk] at hkk
                  injection hkk with h'
                  subst h'
                  simp
      obtain ⟨s1, s2, s3, s4⟩ := step (groupStep uid gs tr) rfl
      have := ih (groupStep uid gs tr) (processed ++ [tr]) s1 s2 s3 s4
      simpa [List.append_assoc] using this

/-- The nested grouping fold equals the flat fold over the tagged
rows. -/
theorem groupRows_eq_foldl (srs : List SourceResult) (uid : Str) :
    groupRows srs uid = (taggedRowsOf srs).foldl (groupStep uid) [] := by
  suffices h : ∀ (srs : List SourceResult) (gs : List (JsVal × Group)),
      srs.foldl (fun gs sr => sr.rows.foldl (fun gs' row => groupStep uid gs' ⟨row, sr.source⟩) gs) gs =
      (taggedRowsOf srs).foldl (groupStep uid) gs by
    exact h srs []
  intro srs
  induction srs with
  | nil => intro gs; rfl
  | cons sr rest ih =>
      intro gs
      rw [List.foldl_cons, ih]
      unfold taggedRowsOf
      rw [List.flatMap_cons, List.foldl_append, List.foldl_map]

/-- Every produced group holds exactly the member rows of its (truthy)
key. -/
theorem groupRows_spec (srs : List SourceResult) (uid : Str) :
    ∀ p ∈ groupRows srs uid,
      p.2.rows = memberRows srs uid p.1 ∧ jsTruthyV p.1 = true := by
  intro p hp
  rw [groupRows_eq_foldl] at hp
  have inv := groupFold_invariant uid (taggedRowsOf srs) [] []
    (by intro q hq; cases hq) (by simp) (by simp) (by intro tr htr; cases htr)
  refine ⟨?_, ?_⟩
  · have := inv.1 p hp
    simpa [memberRows] using this
  · exact inv.2.2 p.1 (List.mem_map.mpr ⟨p, hp, rfl⟩)

/-- The summed valuation field equals the arithmetic sum of the
per-row coerced values, with `NaN` coercions contributing `0`. -/
theorem sumField_eq_sum (trs : List TaggedRow) (f : Str) :
    sumField trs f = (trs.map (fun tr => (coerceNum (getProp tr.row f)).getD 0)).sum := by
  suffices h : ∀ (trs : List TaggedRow) (a : ℚ),
      trs.foldl (fun acc tr =>
        match coerceNum (getProp tr.row f) with
        | some v => acc + v
        | none => acc) a =
      a + (trs.map (fun tr => (coerceNum (getProp tr.row f)).getD 0)).sum by
    have := h trs 0
    simpa [sumField] using this
  intro trs
  induction trs with
  | nil => intro a; simp
  | cons tr rest ih =>
      intro a
      rw [List.foldl_cons, List.map_cons, List.sum_cons]
      cases hc : coerceNum (getProp tr.row f) with
      | none => rw [ih]; simp
      | some v => rw [ih]; simp; ring

/-- Characterisation of the aggregated output rows: `_subRows` is the
member-row list of the group's key, the key is truthy, `_isAggregated`
flags groups of more than one row, and the valuation values are the
member sums. -/
theorem combine_spec (srs : List SourceResult) (uid : Str) (cols vfs : List Str) :
    ∀ g ∈ combineMultiSourceResults srs uid cols vfs,
      g.subRows = memberRows srs uid g.idVal ∧
      jsTruthyV g.idVal = true ∧
      g.isAggregated = decide (1 < g.subRows.length) ∧
      g.vals = vfs.map (fun f => (f, sumField g.subRows f)) := by
  intro g hg
  unfold combineMultiSourceResults at hg
  rcases List.mem_map.mp hg with ⟨kg, hkg, rfl⟩
  obtain ⟨hrows, htruthy⟩ := groupRows_spec srs uid kg hkg
  exact ⟨hrows, htruthy, rfl, by rw [hrows]⟩

end QueryEngine

/-- **C2** — In every multi-source result group, the aggregated value of
each valuation field is the arithmetic sum, over the member rows sharing
the group's `uniqueId` value, of that field's value coerced by stripping
non-digit/dot/minus characters (unparseable values contributing `0`);
`_subRows` is exactly the member-row list, and `_isAggregated` holds
exactly when the group has more than one member row. -/
theorem C2_aggregation_sums (srs : List QueryEngine.SourceResult) (uid : Str)
    (cols vfs : List Str) (g : QueryEngine.AggRow)
    (hg : g ∈ QueryEngine.combineMultiSourceResults srs uid cols vfs) :
    g.vals = vfs.map (fun f => (f,
      ((QueryEngine.memberRows srs uid g.idVal).map
        (fun tr => (coerceNum (getProp tr.row f)).getD 0)).sum)) ∧
    g.subRows = QueryEngine.memberRows srs uid g.idVal ∧
    (g.isAggregated = true ↔ 1 < g.subRows.length) := by
  obtain ⟨hrows, _, hagg, hvals⟩ := QueryEngine.combine_spec srs uid cols vfs g hg
  refine ⟨?_, hrows, by rw [hagg]; simp⟩
  rw [hvals, hrows]
  exact List.map_congr_left (fun f _ => by rw [QueryEngine.sumField_eq_sum])

/-- C2 witness: combining the loans and checking fixture rows groups
portfolios `"1"` (both sources, aggregated, `Principal = 100`,
`Balance = 50`) and `"2"` (loans only). -/
theorem C2_aggregation_sums_witness :
    ((QueryEngine.combineMultiSourceResults Fixtures.srs2 (lc "Portfolio") []
        [lc "Principal", lc "Balance"]).getD 0
      ⟨.null, [], [], false, [], []⟩) ∈
      QueryEngine.combineMultiSourceResults Fixtures.srs2 (lc "Portfolio") []
        [lc "Principal", lc "Balance"] ∧
    ((QueryEngine.combineMultiSourceResults Fixtures.srs2 (lc "Portfolio") []
        [lc "Principal", lc "Balance"]).getD 0
      ⟨.null, [], [], false, [], []⟩).vals =
      [lc "Principal", lc "Balance"].map (fun f => (f,
        ((QueryEngine.memberRows Fixtures.srs2 (lc "Portfolio")
          (((QueryEngine.combineMultiSourceResults Fixtures.srs2 (lc "Portfolio") []
            [lc "Principal", lc "Balance"]).getD 0
              ⟨.null, [], [], false, [], []⟩).idVal)).map
          (fun tr => (coerceNum (getProp tr.row f)).getD 0)).sum)) ∧
    ((QueryEngine.combineMultiSourceResults Fixtures.srs2 (lc "Portfolio") []
        [lc "Principal", lc "Balance"]).getD 0
      ⟨.null, [], [], false, [], []⟩).vals =
      [(lc "Principal", (100 : ℚ)), (lc "Balance", (50 : ℚ))] := by
  have hmem : ((QueryEngine.combineMultiSourceResults Fixtures.srs2 (lc "Portfolio") []
      [lc "Principal", lc "Balance"]).getD 0 ⟨.null, [], [], false, [], []⟩) ∈
      QueryEngine.combineMultiSourceResults Fixtures.srs2 (lc "Portfolio") []
        [lc "Principal", lc "Balance"] :=
    of_decide_eq_true (by with_unfolding_all rfl)
  exact ⟨hmem,
    (C2_aggregation_sums Fixtures.srs2 (lc "Portfolio") [] [lc "Principal", lc "Balance"]
      _ hmem).1,
    of_decide_eq_true (by with_unfolding_all rfl)⟩

/-- **C9** — In multi-source aggregation, a filtered row whose
`uniqueId` value is falsy – `null`/`undefined`, but likewise the number
`0` or the empty string – joins no group and never appears in the
aggregated result rows. -/
theorem C9_falsy_uniqueId_excluded (srs : List QueryEngine.SourceResult) (uid : Str)
    (cols vfs : List Str) (row : Row)
    (hfalsy : jsTruthy (getProp row uid) = false) :
    (∀ g ∈ QueryEngine.combineMultiSourceResults srs uid cols vfs,
      ∀ tr ∈ g.subRows, tr.row ≠ row) ∧
    jsTruthy (some (JsVal.num 0)) = false ∧
    jsTruthy (some (JsVal.str [])) = false ∧
    jsTruthy (some JsVal.null) = false ∧
    jsTruthy none = false := by
  refine ⟨?_, rfl, rfl, rfl, rfl⟩
  intro g hg tr htr heq
  obtain ⟨hrows, _, _, _⟩ := QueryEngine.combine_spec srs uid cols vfs g hg
  rw [hrows] at htr
  have hkey := of_decide_eq_true (List.mem_filter.mp htr).2
  have : QueryEngine.rowKey uid tr = none :=
    QueryEngine.rowKey_none_of_falsy (by rw [heq]; exact hfalsy)
  rw [this] at hkey
  cases hkey

/-- C9 witness: the loans fixture row whose `Portfolio` is the empty
string passes the filter stage but appears in no aggregated group. -/
theorem C9_falsy_uniqueId_excluded_witness :
    jsTruthy (getProp Fixtures.loanRowFalsy (lc "Portfolio")) = false ∧
    (∀ g ∈ QueryEngine.combineMultiSourceResults Fixtures.srs9 (lc "Portfolio") []
        [lc "Principal", lc "Balance"],
      ∀ tr ∈ g.subRows, tr.row ≠ Fixtures.loanRowFalsy) :=
  ⟨by decide,
   (C9_falsy_uniqueId_excluded Fixtures.srs9 (lc "Portfolio") []
     [lc "Principal", lc "Balance"] Fixtures.loanRowFalsy (by decide)).1⟩

/-- Every sub-row of a combined group originates from one of the
source-result entries, tagged with that entry's source. -/
theorem subRow_origin (srs : List QueryEngine.SourceResult) (uid : Str)
    (cols vfs : List Str) (g : QueryEngine.AggRow)
    (hg : g ∈ QueryEngine.combineMultiSourceResults srs uid cols vfs)
    (tr : QueryEngine.TaggedRow) (htr : tr ∈ g.subRows) :
    ∃ sr ∈ srs, tr.src = sr.source ∧ tr.row ∈ sr.rows := by
  obtain ⟨hrows, _, _, _⟩ := QueryEngine.combine_spec srs uid cols vfs g hg
  rw [hrows] at htr
  have hmem : tr ∈ QueryEngine.taggedRowsOf srs := (List.mem_filter.mp htr).1
  unfold QueryEngine.taggedRowsOf at hmem
  rcases List.mem_flatMap.mp hmem with ⟨sr, hsr, htag⟩
  rcases List.mem_map.mp htag with ⟨r, hr, hre⟩
  exact ⟨sr, hsr, by rw [← hre], by rw [← hre]; exact hr⟩

/-- **C1** — Unmapped conditions are fail-closed: (1) a source whose
per-source mapped condition list contains a condition without a `field`
returns zero rows from the filter stage; (2) an unresolved numeric or
date condition always evaluates to reject; (3) in a multi-source query,
such a source contributes no row to the combined result, even while
other sources' rows pass their mapped conditions. -/
theorem C1_unmapped_fail_closed :
    (∀ (d : QueryEngine.DateOracle) (lop : Str) (src : SourceMeta)
        (rows : List Row) (conds : List Cond),
      (∃ c ∈ conds, c.field = none) →
      QueryEngine.executeQueryFromSource d lop src rows conds = []) ∧
    (∀ (cond : Cond) (row : Row), cond.field = none →
      QueryEngine.buildNumericPredicate cond row = false ∧
      ∀ d, QueryEngine.buildDatePredicate d cond row = false) ∧
    (∀ (d : QueryEngine.DateOracle) (e : Env) (meta : Option (List Str))
        (plan : NLP.Plan) (src : SourceMeta) (sch : Schema),
      src ∈ QueryEngine.sourcesToQueryOf e plan.targetEntities →
      e.getSchema src.sourceId = some sch →
      (∃ c ∈ ConceptMapper.mapConceptsToFields (some sch) meta plan.conditions,
        c.field = none) →
      ∀ g ∈ (QueryEngine.executeMultiSourceQuery d e meta plan).rows,
        ∀ tr ∈ g.subRows, tr.src ≠ src) := by
  have part1 : ∀ (d : QueryEngine.DateOracle) (lop : Str) (src : SourceMeta)
      (rows : List Row) (conds : List Cond),
      (∃ c ∈ conds, c.field = none) →
      QueryEngine.executeQueryFromSource d lop src rows conds = [] := by
    intro d lop src rows conds ⟨c, hc, hfield⟩
    unfold QueryEngine.executeQueryFromSource
    by_cases hrows : rows = []
    · simp [hrows]
    · have hany : conds.any (fun c => !(strOptTruthy c.field)) = true :=
        List.any_eq_true.mpr ⟨c, hc, by rw [hfield]; rfl⟩
      simp [hrows, hany]
  refine ⟨part1, ?_, ?_⟩
  · intro cond row hfield
    refine ⟨?_, ?_⟩
    · unfold QueryEngine.buildNumericPredicate
      rw [hfield]
    · intro d
      unfold QueryEngine.buildDatePredicate
      rw [hfield]
  · intro d e meta plan src sch hsrc hsch hex g hg tr htr heq
    by_cases hsq : QueryEngine.sourcesToQueryOf e plan.targetEntities = []
    · rw [hsq] at hsrc; cases hsrc
    · have hg' : g ∈ QueryEngine.combineMultiSourceResults
          (QueryEngine.sourceResultsOf d e meta plan.logicalOp plan.conditions
            (QueryEngine.sourcesToQueryOf e plan.targetEntities))
          (match plan.uniqueId with
           | some u => if u = [] then QueryEngine.findUniqueIdentifierField e e.sourcesMeta else u
           | none => QueryEngine.findUniqueIdentifierField e e.sourcesMeta)
          (plan.columns.getD [])
          ((QueryEngine.matchedSources e plan.targetEntities).foldl
            (fun acc src => (QueryEngine.identifyValuationFields e [src]).foldl
              QueryEngine.addSet acc) []) := by
        unfold QueryEngine.executeMultiSourceQuery at hg
        simp only [hsq, if_false] at hg
        exact hg
      obtain ⟨sr, hsr, hsrcEq, hrowMem⟩ := subRow_origin _ _ _ _ g hg' tr htr
      unfold QueryEngine.sourceResultsOf at hsr
      rcases List.mem_filterMap.mp hsr with ⟨src', hsrc', hmk⟩
      cases hsch' : e.getSchema src'.sourceId with
      | none => rw [hsch'] at hmk; cases hmk
      | some sch' =>
          rw [hsch'] at hmk
          simp only [Option.some.injEq] at hmk
          subst hmk
          have hsrc'eq : src' = src := by
            rw [heq] at hsrcEq
            exact hsrcEq.symm
          subst hsrc'eq
          rw [hsch] at hsch'
          injection hsch' with hscheq
          rw [hscheq] at hex
          have hempty := part1 d plan.logicalOp src' (e.getAllRows src'.sourceId)
            (ConceptMapper.mapConceptsToFields (some sch') meta plan.conditions) hex
          rw [hempty] at hrowMem
          cases hrowMem

/-- C1 witness: on the two-source fixture, the condition `rate > 5`
maps to the `Rate` field of the loans source but to no field of the
checking source, so the checking source contributes no sub-row to the
combined result (while the matching loans row does survive). -/
theorem C1_unmapped_fail_closed_witness :
    Fixtures.checkMeta ∈
      QueryEngine.sourcesToQueryOf Fixtures.env0 Fixtures.planRate.targetEntities ∧
    Fixtures.env0.getSchema Fixtures.checkMeta.sourceId = some Fixtures.checkSchema ∧
    (∃ c ∈ ConceptMapper.mapConceptsToFields (some Fixtures.checkSchema) none
        Fixtures.planRate.conditions, c.field = none) ∧
    (∀ g ∈ (QueryEngine.executeMultiSourceQuery Fixtures.d0 Fixtures.env0 none
        Fixtures.planRate).rows, ∀ tr ∈ g.subRows, tr.src ≠ Fixtures.checkMeta) ∧
    ((QueryEngine.executeMultiSourceQuery Fixtures.d0 Fixtures.env0 none
        Fixtures.planRate).rows.map (fun g => g.subRows.length) = [1]) := by
  refine ⟨by decide, by decide, of_decide_eq_true (by with_unfolding_all rfl), ?_,
    of_decide_eq_true (by with_unfolding_all rfl)⟩
  exact (C1_unmapped_fail_closed.2.2 Fixtures.d0 Fixtures.env0 none Fixtures.planRate
    Fixtures.checkMeta Fixtures.checkSchema (by decide) (by decide)
    (of_decide_eq_true (by with_unfolding_all rfl)))

/-- The bound-ordering property a condition must satisfy for C10. -/
def BetweenOrdered (c : Cond) : Prop :=
  c.op = lc "between" → ∀ a b, c.valueMin = some a → c.valueMax = some b → a ≤ b

/-- `Math.min`/`Math.max` normalisation yields ordered bounds whenever
both are numbers. -/
theorem minO_maxO_le {x y : Option ℚ} {a b : ℚ}
    (hmin : NLP.minO x y = some a) (hmax : NLP.maxO x y = some b) : a ≤ b := by
  cases x with
  | none => cases hmin
  | some u =>
      cases y with
      | none => cases hmin
      | some v =>
          simp only [NLP.minO, NLP.maxO, Option.some.injEq] at hmin hmax
          rw [← hmin, ← hmax]
          exact min_le_max

/-- Generic invariant for the condition-accumulating folds of the
parser. -/
theorem foldl_cond_inv {α : Type} (step : List Cond × NLP.Session → α → List Cond × NLP.Session)
    (P : Cond → Prop)
    (hstep : ∀ acc m c, c ∈ (step acc m).1 → c ∈ acc.1 ∨ P c) :
    ∀ (ms : List α) (acc : List Cond × NLP.Session),
      (∀ c ∈ acc.1, P c) → ∀ c ∈ (ms.foldl step acc).1, P c := by
  intro ms
  induction ms with
  | nil => intro acc hacc; exact hacc
  | cons m rest ih =>
      intro acc hacc
      refine ih (step acc m) ?_
      intro c hc
      rcases hstep acc m c hc with h | h
      · exact hacc c h
      · exact h

/-- Every condition produced by `parseBetweenConditions` is a between
condition with `Math.min`/`Math.max`-normalised bounds. -/
theorem parseBetweenConditions_ordered (text : Str) (s : NLP.Session) :
    ∀ c ∈ (NLP.parseBetweenConditions text s).1, BetweenOrdered c := by
  unfold NLP.parseBetweenConditions
  refine foldl_cond_inv _ _ ?_ _ ([], s) (by intro c hc; cases hc)
  intro acc m c hc
  simp only [List.mem_append, List.mem_singleton] at hc
  rcases hc with h | h
  · exact Or.inl h
  · refine Or.inr ?_
    subst h
    intro _ a b hmin hmax
    exact minO_maxO_le hmin hmax

/-- A condition whose operator is not `between` is trivially
bound-ordered. -/
theorem BO_of_op_ne {c : Cond} (h : ¬ c.op = lc "between") : BetweenOrdered c :=
  fun hop => absurd hop h

/-- A condition built with `Math.min`/`Math.max` bounds is
bound-ordered. -/
theorem BO_of_minmax {c : Cond} {x y : Option ℚ}
    (h1 : c.valueMin = NLP.minO x y) (h2 : c.valueMax = NLP.maxO x y) :
    BetweenOrdered c :=
  fun _ a b hmin hmax => minO_maxO_le (h1 ▸ hmin) (h2 ▸ hmax)

/-- Boolean form of `BO_of_op_ne`, convenient when the condition record
mentions free variables. -/
theorem BO_of_op_ne_b {c : Cond} (h : (c.op == lc "between") = false) :
    BetweenOrdered c :=
  BO_of_op_ne (fun hop => absurd h (by rw [hop]; simp))

/-- Every condition produced by `parseConditionFragment` is either a
non-between condition or has normalised bounds. -/
theorem parseConditionFragment_ordered (fragment : Str) (s : NLP.Session) :
    ∀ c ∈ (NLP.parseConditionFragment fragment s).1, BetweenOrdered c := by
  intro c hc
  unfold NLP.parseConditionFragment at hc
  rcases hbr : (NLP.scanWB NLP.branchKwAt fragment <|> NLP.scanWB NLP.branchBareAt fragment)
    with _ | d1 <;> simp only [hbr] at hc <;>
  rcases hty : NLP.scanWB NLP.typeAt fragment with _ | d2 <;> simp only [hty] at hc <;>
  rcases hbw : NLP.scanAny NLP.betweenAt fragment with _ | m3 <;> simp only [hbw] at hc <;>
  rcases hgt : NLP.scanAny (NLP.cmpAt NLP.gtAlts) fragment with _ | m4 <;>
    simp only [hgt] at hc <;>
  rcases hlt : NLP.scanAny (NLP.cmpAt NLP.ltAlts) fragment with _ | m5 <;>
    simp only [hlt] at hc <;>
  rcases htm : NLP.scanAny NLP.timeAt fragment with _ | m6 <;> simp only [htm] at hc <;>
  simp only [List.append_nil, List.nil_append, List.mem_append, List.mem_singleton,
    List.not_mem_nil, false_or, or_false] at hc <;>
  (try (repeat' (rcases hc with hc | hc))) <;>
  (try (obtain rfl := hc)) <;>
  first
  | exact BO_of_op_ne_b rfl
  | exact BO_of_minmax rfl rfl

/-- Date conditions carry only the `before`/`after` operators. -/
theorem extractDateGo_ops (h : NLP.Host) :
    ∀ (fuel : ℕ) (prev : Option Char) (t : Str) (lastField : Option Str) (acc : List Cond),
    (∀ c ∈ acc, c.op = lc "before" ∨ c.op = lc "after") →
    ∀ c ∈ NLP.extractDateGo h fuel prev t lastField acc,
      c.op = lc "before" ∨ c.op = lc "after" := by
  intro fuel
  induction fuel with
  | zero =>
      intro prev t lf acc hacc c hc
      cases t with
      | nil => exact hacc c hc
      | cons a b => exact hacc c hc
  | succ fuel ih =>
      intro prev t lf acc hacc c hc
      cases t with
      | nil => exact hacc c hc
      | cons ch rest =>
          rw [NLP.extractDateGo] at hc
          rcases hm : (if NLP.bBefore prev then NLP.dateCondAt (ch :: rest) else none)
            with _ | m
          · simp only [hm] at hc
            exact ih _ _ _ _ hacc c hc
          · simp only [hm] at hc
            rcases hm1 : m.1 with _ | fw
            · simp only [hm1] at hc
              cases lf with
              | none =>
                  (try (simp only [] at hc))
                  exact ih _ _ _ _ hacc c hc
              | some fwv =>
                  (try (simp only [] at hc))
                  rcases hpd : NLP.parseDateString h (jsTrim m.2.2.1) with _ | dd
                  · simp only [hpd] at hc
                    exact ih _ _ _ _ hacc c hc
                  · simp only [hpd] at hc
                    refine ih _ _ _ _ ?_ c hc
                    intro c' hc'
                    rcases List.mem_append.mp hc' with h' | h'
                    · exact hacc c' h'
                    · rcases List.mem_singleton.mp h' with rfl
                      by_cases hbf : m.2.1 = lc "before"
                      · exact Or.inl (by simp [hbf])
                      · exact Or.inr (by simp [hbf])
            · simp only [hm1] at hc
              rcases hpd : NLP.parseDateString h (jsTrim m.2.2.1) with _ | dd
              · simp only [hpd] at hc
                exact ih _ _ _ _ hacc c hc
              · simp only [hpd] at hc
                refine ih _ _ _ _ ?_ c hc
                intro c' hc'
                rcases List.mem_append.mp hc' with h' | h'
                · exact hacc c' h'
                · rcases List.mem_singleton.mp h' with rfl
                  by_cases hbf : m.2.1 = lc "before"
                  · exact Or.inl (by simp [hbf])
                  · exact Or.inr (by simp [hbf])

/-- **C10 (amended)** — Every between condition the prompt parser
produces has `Math.min`/`Math.max`-normalised bounds: whenever both
bounds are numbers, `valueMin ≤ valueMax`, even if the prompt lists them
in reverse order.  (When a bound's numeral is unparseable, both bounds
are `NaN`; see the counterexample.) -/
theorem C10_between_bounds_ordered (h : NLP.Host) (prompt : Str) (s : NLP.Session)
    (c : Cond) (hc : c ∈ (NLP.parsePrompt h prompt s).1.conditions)
    (hop : c.op = lc "between") (a b : ℚ)
    (hmin : c.valueMin = some a) (hmax : c.valueMax = some b) : a ≤ b := by
  rw [NLP.parsePrompt] at hc
  by_cases ht : jsTrim prompt = []
  · rw [ht] at hc
    rw [NLP.parsePromptT] at hc
    simp at hc
  · rw [NLP.parsePromptT] at hc
    rw [if_neg ht] at hc
    simp only [List.mem_append] at hc
    rcases hc with (hc | hc) | hc
    · exact parseBetweenConditions_ordered _ _ c hc hop a b hmin hmax
    · refine foldl_cond_inv _ BetweenOrdered ?_ _ _ (by intro c' hc'; cases hc') c hc
        hop a b hmin hmax
      intro acc part c' hc'
      simp only [List.mem_append] at hc'
      rcases hc' with h' | h'
      · exact Or.inl h'
      · exact Or.inr (parseConditionFragment_ordered part acc.2 c' h')
    · rcases extractDateGo_ops h _ _ _ _ [] (by intro c' hc'; cases hc') c
        (by simpa [NLP.extractDateConditions, ht] using hc) with h' | h'
      · exact absurd (h' ▸ hop) (by decide)
      · exact absurd (h' ▸ hop) (by decide)

/-- C10 witness: `"b between 9 and 2"` states the bounds in reverse
order and still yields the well-ordered inclusive range `[2, 9]`. -/
theorem C10_between_bounds_ordered_witness :
    (⟨some (lc "balance"), lc "between", none, some 2, some 9, some (lc "number"),
        none, none, false, none, none, none⟩ : Cond) ∈
      (NLP.parsePrompt Fixtures.h0 (lc "b between 9 and 2") NLP.Session.init).1.conditions ∧
    (2 : ℚ) ≤ 9 := by
  have hmem : (⟨some (lc "balance"), lc "between", none, some 2, some 9, some (lc "number"),
      none, none, false, none, none, none⟩ : Cond) ∈
      (NLP.parsePrompt Fixtures.h0 (lc "b between 9 and 2") NLP.Session.init).1.conditions :=
    of_decide_eq_true (by with_unfolding_all rfl)
  exact ⟨hmem, C10_between_bounds_ordered Fixtures.h0 (lc "b between 9 and 2")
    NLP.Session.init _ hmem (by decide) 2 9 (by decide) (by decide)⟩

/-- C10 counterexample: `"a between . and 5"` produces a between
condition whose bounds are both `NaN` (`Number(".") = NaN` propagated by
`Math.min`/`Math.max`), so the produced condition does **not** satisfy
`valueMin ≤ valueMax` (the JS comparison is false). -/
theorem C10_nan_bounds_counterexample :
    ∃ c ∈ (NLP.parsePrompt Fixtures.h0 (lc "a between . and 5")
        NLP.Session.init).1.conditions,
      c.op = lc "between" ∧ jsLeO c.valueMin c.valueMax = false ∧ c.valueMin = none :=
  of_decide_eq_true (by with_unfolding_all rfl)

/-- The head of `dropWhile p l` fails `p`. -/
theorem dropWhile_head_false {p : Char → Bool} {l : List Char} {a : Char}
    {r : List Char} (h : l.dropWhile p = a :: r) : p a = false := by
  have hh := List.head?_dropWhile_not p l
  rw [h] at hh
  simpa using hh

/-- `dropWhile` is idempotent. -/
theorem dropWhile_idem (p : Char → Bool) (l : List Char) :
    (l.dropWhile p).dropWhile p = l.dropWhile p := by
  cases hd : l.dropWhile p with
  | nil => rfl
  | cons a r => simp [List.dropWhile, dropWhile_head_false hd]

/-- `trim` is idempotent, hence re-trimming a plan's `raw` text is a
no-op. -/
theorem jsTrim_idem (s : Str) : jsTrim (jsTrim s) = jsTrim s := by
  unfold jsTrim
  have h1 : ((s.dropWhile isWsCh).reverse.dropWhile isWsCh).reverse.dropWhile isWsCh
      = ((s.dropWhile isWsCh).reverse.dropWhile isWsCh).reverse := by
    cases hwr : ((s.dropWhile isWsCh).reverse.dropWhile isWsCh).reverse with
    | nil => rfl
    | cons a r =>
        have hga : ((s.dropWhile isWsCh).reverse.dropWhile isWsCh).getLast? = some a := by
          rw [← List.head?_reverse, hwr]; rfl
        obtain ⟨pre, hpre⟩ := List.dropWhile_suffix
          (l := (s.dropWhile isWsCh).reverse) isWsCh
        have hgl : (s.dropWhile isWsCh).reverse.getLast? = some a := by
          rw [← hpre, List.getLast?_append, hga]; rfl
        have hhd : (s.dropWhile isWsCh).head? = some a := by
          rw [← List.getLast?_reverse]; exact hgl
        have hfa : isWsCh a = false := by
          cases hu : s.dropWhile isWsCh with
          | nil => rw [hu] at hhd; cases hhd
          | cons b r' =>
              rw [hu] at hhd
              cases hhd
              exact dropWhile_head_false hu
        simp [List.dropWhile, hfa]
  rw [h1, List.reverse_reverse, dropWhile_idem]

/-- The `raw` field of every parsed plan is the trimmed prompt. -/
theorem parsePrompt_raw (h : NLP.Host) (x : Str) (s : NLP.Session) :
    (NLP.parsePrompt h x s).1.raw = jsTrim x := by
  rw [NLP.parsePrompt, NLP.parsePromptT]
  by_cases ht : jsTrim x = [] <;> simp [ht]

/-- **C5 (amended)** — Re-parsing a returned plan's `raw` text yields an
identical plan only when the resolution session is restored to the state
it had before the first parse: `parsePrompt` is a pure function of the
prompt and the session, and `raw` round-trips through `trim`.  (Against
the *current* session the second parse can differ, because the first
parse's concept resolutions are recorded in the session history; see the
counterexample.) -/
theorem C5_raw_reparse_same_state (h : NLP.Host) (x : Str) (s : NLP.Session) :
    NLP.parsePrompt h ((NLP.parsePrompt h x s).1.raw) s = NLP.parsePrompt h x s := by
  rw [parsePrompt_raw, NLP.parsePrompt, NLP.parsePrompt, jsTrim_idem]

/-- C5 counterexample: parsing `x5` from a fresh session and then
re-parsing the returned plan's `raw` (the identical text) against the
session that first parse produced yields a *different* plan — the
session's query history changes the statistical concept resolution of
the second fragment from the fallback `amount` to `z`. -/
theorem C5_reparse_counterexample : Fixtures.run5b.1 ≠ Fixtures.run5a.1 :=
  fun hEq =>
    absurd (congrArg (fun p => p.conditions.map Cond.concept) hEq)
      (of_decide_eq_false (by with_unfolding_all rfl))
